import Mathlib

/-! # Monty Hall Problem Simulator (`src/monty.c`)

A shallow embedding of the simulator and the theorems that settle the claims
of its specification.

Modelling conventions.

* The C library generator is a fixed sequence of raw draws (determined by the
  seed) together with the number of draws already consumed (`Rng`).
* `assert` failures, accesses outside an allocated row, and signed `int`
  overflow are faults: the embedded functions return `Except Fault _`.
* A failing call returns no generator; `roll_die_call` and `setup_doors_call`
  give the same two calls together with the generator as the call leaves it, so
  that what an aborted call consumed can be stated.
* The two `while` scans of a trial carry a fuel argument; `play_fuel_suffices`
  shows that the fuel supplied is never exhausted.
* Door indices only ever start at `0` and are incremented, so they are `Nat`.
* Standard input is the finite list of characters still unread; the two
  `scanf` calls are modelled on it (`scan_int`, `scan_char`). Standard output is
  the list of `printf` calls made so far.
* The `while` loop of `main` need not terminate, so `main_loop` takes the number
  of iterations it may run and reports whether the loop was left (`finished`) or
  is still running.
-/

namespace Monty

/-! ## Faults, machine integers -/

/-- Ways in which the program leaves defined behaviour or aborts. -/
inductive Fault where
  /-- an `assert(...)` failed: the process aborts -/
  | assertFailed
  /-- a row of `size` cells was read or written at `index` with `size ≤ index` -/
  | outOfBounds (index size : Nat)
  /-- a signed `int` was incremented past `INT_MAX` -/
  | intOverflow
  /-- a decimal input item does not fit in an `int` -/
  | intConversion
  /-- the fuel of a scan ran out (shown not to happen) -/
  | loopFuel
  deriving DecidableEq, Repr

/-- Largest value of a C `int` (32-bit). -/
def INT_MAX : Int := 2147483647

/-- The C statement `x++` on an `int`. -/
def int_incr (x : Int) : Except Fault Int :=
  if x < INT_MAX then .ok (x + 1) else .error .intOverflow

/-! ## Random source (`monty.c` lines 18-43) -/

/-- State of the library generator: the sequence of values `rand()` returns
after seeding, and how many of them were consumed so far. -/
structure Rng where
  draws : Nat → Nat
  pos : Nat

/-- The next raw draw. -/
def Rng.peek (g : Rng) : Nat := g.draws g.pos

/-- The generator after one more draw was consumed. -/
def Rng.next (g : Rng) : Rng := { g with pos := g.pos + 1 }

/-- Function `random_number()`: returns `rand()`. -/
def random_number (g : Rng) : Int × Rng :=
  let r : Int := (g.draws g.pos : Int)
  (r, g.next)

/-- Function `roll_die(numSides)`; `Int.tmod` is the truncating `%` of C. -/
def roll_die (numSides : Int) (g : Rng) : Except Fault (Int × Rng) :=
  if numSides ≥ 1 then
    let (r0, g1) := random_number g
    let r := Int.tmod r0 numSides + 1
    .ok (r, g1)
  else
    .error .assertFailed

/-! ## Door set (`monty.c` lines 46-95) -/

/-- The value `bool **doors`: `prize` is row `doors[0]`, `isOpen` is row
`doors[1]`. -/
structure Doors where
  prize : List Bool
  isOpen : List Bool
  deriving DecidableEq, Repr

/-- Read `row[i]`. -/
def readDoor (row : List Bool) (i : Nat) : Except Fault Bool :=
  match row[i]? with
  | some b => .ok b
  | none => .error (.outOfBounds i row.length)

/-- Write `row[i] = v`. -/
def writeDoor (row : List Bool) (i : Nat) (v : Bool) : Except Fault (List Bool) :=
  if i < row.length then .ok (row.set i v) else .error (.outOfBounds i row.length)

/-- Function `setup_doors(numDoors)`: the `for` loop over `i = 0 .. numDoors-1`
stores `i == winDoor - 1` in `doorsPrize[i]` and `false` in `doorsOpen[i]`. -/
def setup_doors (numDoors : Int) (g : Rng) : Except Fault (Doors × Rng) :=
  if numDoors ≥ 1 then
    match roll_die numDoors g with
    | .error e => .error e
    | .ok (winDoor, g1) =>
      let doorsPrize := (List.range numDoors.toNat).map
        (fun (i : Nat) => decide ((i : Int) = winDoor - 1))
      let doorsOpen := (List.range numDoors.toNat).map (fun (_ : Nat) => false)
      .ok ({ prize := doorsPrize, isOpen := doorsOpen }, g1)
  else
    .error .assertFailed

/-- Function `roll_die(numSides)` together with the generator as the call leaves
it, on return or on abort: the assertion of line 40 is checked before
`random_number()` is called on line 41, so an abort leaves the generator
untouched. -/
def roll_die_call (numSides : Int) (g : Rng) : Except Fault Int × Rng :=
  if numSides ≥ 1 then
    let (r0, g1) := random_number g
    let r := Int.tmod r0 numSides + 1
    (.ok r, g1)
  else
    (.error .assertFailed, g)

/-- Function `setup_doors(numDoors)` together with the generator as the call
leaves it, on return or on abort: the assertion of line 52 comes before the
allocations and before the call of `roll_die` on line 68. -/
def setup_doors_call (numDoors : Int) (g : Rng) : Except Fault Doors × Rng :=
  if numDoors ≥ 1 then
    match roll_die_call numDoors g with
    | (.error e, g1) => (.error e, g1)
    | (.ok winDoor, g1) =>
      let doorsPrize := (List.range numDoors.toNat).map
        (fun (i : Nat) => decide ((i : Int) = winDoor - 1))
      let doorsOpen := (List.range numDoors.toNat).map (fun (_ : Nat) => false)
      (.ok { prize := doorsPrize, isOpen := doorsOpen }, g1)
  else
    (.error .assertFailed, g)

/-! ## One trial (`main`, lines 128-168) -/

/-- Array `int results[2]`: `results[0]` counts wins, `results[1]` losses. -/
structure Results where
  wins : Int
  losses : Int
  deriving DecidableEq, Repr

/-- The host-reveal scan
`while (losingDoor == choice || doors[0][losingDoor]) ++losingDoor;`
(the read is skipped when the first disjunct holds). -/
def reveal_scan (doorsPrize : List Bool) (choice : Nat) : Nat → Nat → Except Fault Nat
  | 0, _ => .error .loopFuel
  | fuel + 1, losingDoor =>
    if losingDoor = choice then
      reveal_scan doorsPrize choice fuel (losingDoor + 1)
    else
      match readDoor doorsPrize losingDoor with
      | .error e => .error e
      | .ok true => reveal_scan doorsPrize choice fuel (losingDoor + 1)
      | .ok false => .ok losingDoor

/-- The switch scan
`while (otherDoor == losingDoor || otherDoor == choice) ++otherDoor;`. -/
def switch_scan (losingDoor choice : Nat) : Nat → Nat → Except Fault Nat
  | 0, _ => .error .loopFuel
  | fuel + 1, otherDoor =>
    if otherDoor = losingDoor ∨ otherDoor = choice then
      switch_scan losingDoor choice fuel (otherDoor + 1)
    else
      .ok otherDoor

/-- What one trial did: the door set as built, the door the host opened, the
door set after the reveal, the player's final choice, the door set when the
outcome is read, and the outcome. -/
structure Trial where
  initial : Doors
  losingDoor : Nat
  revealed : Doors
  choice : Nat
  final : Doors
  win : Bool
  deriving DecidableEq, Repr

/-- Lines 128-156 of `main` for a door count `numDoors` (the constant `3` in
`main`): build the doors, host reveal, switch, open the final choice and read
whether it has the prize. -/
def play (numDoors : Int) (g : Rng) : Except Fault (Trial × Rng) :=
  let choice := 0
  match setup_doors numDoors g with
  | .error e => .error e
  | .ok (doors, g1) =>
    match reveal_scan doors.prize choice (doors.prize.length + 2) 0 with
    | .error e => .error e
    | .ok losingDoor =>
      match writeDoor doors.isOpen losingDoor true with
      | .error e => .error e
      | .ok open1 =>
        match switch_scan losingDoor choice 3 0 with
        | .error e => .error e
        | .ok otherDoor =>
          let choice := otherDoor
          match writeDoor open1 choice true with
          | .error e => .error e
          | .ok open2 =>
            match readDoor doors.prize choice with
            | .error e => .error e
            | .ok b => .ok (⟨doors, losingDoor, ⟨doors.prize, open1⟩, choice,
                ⟨doors.prize, open2⟩, b⟩, g1)

/-- Lines 156-165 of `main`: `results[1]++` on a loss, `results[0]++` on a
win. -/
def record (results : Results) (win : Bool) : Except Fault Results :=
  if win = false then
    match int_incr results.losses with
    | .error e => .error e
    | .ok l => .ok { results with losses := l }
  else
    match int_incr results.wins with
    | .error e => .error e
    | .ok w => .ok { results with wins := w }

/-- Body of the `for` loop of `main` (lines 128-168). -/
def trial (numDoors : Int) (results : Results) (g : Rng) :
    Except Fault (Trial × Results × Rng) :=
  match play numDoors g with
  | .error e => .error e
  | .ok (t, g1) =>
    match record results t.win with
    | .error e => .error e
    | .ok results1 => .ok (t, results1, g1)

/-! ## One batch (`main`, lines 126-169) -/

/-- The loop `for (int j = 0; j < numPlays; j++)`, with the number of
iterations still to run as first argument. -/
def batch_loop (numDoors : Int) : Nat → Results → Rng →
    Except Fault (List Trial × Results × Rng)
  | 0, results, g => .ok ([], results, g)
  | k + 1, results, g =>
    match trial numDoors results g with
    | .error e => .error e
    | .ok (t, results1, g1) =>
      match batch_loop numDoors k results1 g1 with
      | .error e => .error e
      | .ok (ts, results2, g2) => .ok (t :: ts, results2, g2)

/-- The `for` loop for a given `numPlays`: it runs `max numPlays 0` times. -/
def batch (numDoors : Int) (numPlays : Int) (results : Results) (g : Rng) :
    Except Fault (List Trial × Results × Rng) :=
  batch_loop numDoors numPlays.toNat results g

/-! ## Standard input (`scanf`) -/

/-- The white-space characters of the C locale. -/
def isspace (c : Char) : Bool :=
  c = ' ' || c = '\t' || c = '\n' || c = '\r' || c.toNat = 11 || c.toNat = 12

/-- Skip leading white space. -/
def skip_space : List Char → List Char
  | [] => []
  | c :: cs => if isspace c then skip_space cs else c :: cs

/-- Read the longest run of decimal digits, accumulating its value; also
returns how many digits were read. -/
def scan_digits : List Char → Nat → Nat → Nat × Nat × List Char
  | [], acc, k => (acc, k, [])
  | c :: cs, acc, k =>
    if c.isDigit then scan_digits cs (10 * acc + (c.toNat - 48)) (k + 1)
    else (acc, k, c :: cs)

/-- The call `scanf("%d", &numPlays)`: the value stored (if any) and the unread
input. White space is skipped, an optional sign and the digits are consumed; with
no digit nothing is stored. -/
def scan_int (stdin : List Char) : Except Fault (Option Int × List Char) :=
  let s1 := skip_space stdin
  let (neg, s2) : Bool × List Char :=
    match s1 with
    | '-' :: cs => (true, cs)
    | '+' :: cs => (false, cs)
    | cs => (false, cs)
  let (v, k, s3) := scan_digits s2 0 0
  if k = 0 then .ok (none, s3)
  else
    let n : Int := if neg then -(v : Int) else (v : Int)
    if -INT_MAX - 1 ≤ n ∧ n ≤ INT_MAX then .ok (some n, s3)
    else .error .intConversion

/-- The call `scanf(" %c", &playAgain)`: the character stored (if any) and the
unread input. -/
def scan_char (stdin : List Char) : Option Char × List Char :=
  match skip_space stdin with
  | [] => (none, [])
  | c :: cs => (some c, cs)

/-! ## The session (`main`, lines 98-181) -/

/-- The `printf` calls of `main`. -/
inductive Event where
  /-- the welcome banner and the description of the problem -/
  | intro
  /-- the prompt `How many plays: ` -/
  | howMany
  /-- the two lines `Times win car ...: results[0]`, `Times win goat ...: results[1]` -/
  | tally (wins losses : Int)
  /-- the prompt `Play Again? (Y/N): ` -/
  | playAgainPrompt
  /-- the line `Bye!` -/
  | bye
  deriving DecidableEq, Repr

/-- Record of one iteration of the `while` loop: what `scanf("%d")` stored,
the resulting `numPlays`, the trials run, and what `scanf(" %c")` stored. -/
structure BatchLog where
  stored : Option Int
  numPlays : Int
  trials : List Trial
  reply : Option Char
  deriving DecidableEq, Repr

/-- State of `main`: its variables `results` and `playAgain`, the generator,
the unread input, what was printed, and the record of the batches run. -/
structure Session where
  results : Results
  playAgain : Char
  rng : Rng
  stdin : List Char
  stdout : List Event
  log : List BatchLog

/-- The constant `numDoors` of `main`. -/
def numDoors : Int := 3

/-- Body of the `while` loop of `main` (lines 120-176). -/
def loop_body (s : Session) : Except Fault Session :=
  let numPlays : Int := 1
  let out1 := s.stdout ++ [Event.howMany]
  match scan_int s.stdin with
  | .error e => .error e
  | .ok (stored, in1) =>
    let numPlays := match stored with
      | some n => n
      | none => numPlays
    match batch numDoors numPlays s.results s.rng with
    | .error e => .error e
    | .ok (ts, results1, g1) =>
      let out2 := out1 ++ [Event.tally results1.wins results1.losses, Event.playAgainPrompt]
      let (reply, in2) := scan_char in1
      let playAgain := match reply with
        | some c => c
        | none => s.playAgain
      .ok { results := results1, playAgain := playAgain, rng := g1, stdin := in2,
            stdout := out2, log := s.log ++ [⟨stored, numPlays, ts, reply⟩] }

/-- Whether `main` left its `while` loop or is still in it when the fuel (the
number of iterations allowed) ran out. -/
inductive Status where
  | finished
  | running
  deriving DecidableEq, Repr

/-- The loop `while (playAgain == 'Y' || playAgain == 'y')`. -/
def main_loop : Nat → Session → Except Fault (Status × Session)
  | 0, s =>
    if s.playAgain = 'Y' ∨ s.playAgain = 'y' then .ok (.running, s)
    else .ok (.finished, s)
  | fuel + 1, s =>
    if s.playAgain = 'Y' ∨ s.playAgain = 'y' then
      match loop_body s with
      | .error e => .error e
      | .ok s1 => main_loop fuel s1
    else .ok (.finished, s)

/-- Function `main`, for the draw sequence fixed by the seed and the
characters on standard input. -/
def main (fuel : Nat) (draws : Nat → Nat) (stdin : List Char) :
    Except Fault (Status × Session) :=
  let s0 : Session :=
    { results := ⟨0, 0⟩, playAgain := 'Y', rng := ⟨draws, 0⟩, stdin := stdin,
      stdout := [Event.intro], log := [] }
  match main_loop fuel s0 with
  | .error e => .error e
  | .ok (.finished, s) => .ok (.finished, { s with stdout := s.stdout ++ [Event.bye] })
  | .ok (.running, s) => .ok (.running, s)

/-! ## Observations used in the statements -/

/-- The sums `wins + losses` of the tallies printed, in order. -/
def printed_totals : List Event → List Int
  | [] => []
  | Event.tally w l :: es => (w + l) :: printed_totals es
  | _ :: es => printed_totals es

/-- Running sums `acc + x₁`, `acc + x₁ + x₂`, ... of a list. -/
def running_sums : Int → List Int → List Int
  | _, [] => []
  | acc, x :: xs => (acc + x) :: running_sums (acc + x) xs

/-- Number of trials a batch with the given `numPlays` runs. -/
def trials_of (b : BatchLog) : Int := max b.numPlays 0

/-- Outcome of one trial whose prize draw is `r`: `some true` for WIN,
`some false` for LOSS, `none` when the trial faults. -/
def outcome (numDoors : Int) (r : Nat) : Option Bool :=
  match play numDoors ⟨fun _ => r, 0⟩ with
  | .ok (t, _) => some t.win
  | .error _ => none

/-- Number of raw draws `r < M` for which the trial with 3 doors is a WIN. -/
def win_count (M : Nat) : Nat :=
  ((List.range M).filter (fun r => outcome 3 r = some true)).length

/-! ## Lemmas: random source and door set -/

theorem tmod_draw (r : Nat) (n : Int) (hn : 1 ≤ n) :
    Int.tmod (r : Int) n = ((r % n.toNat : Nat) : Int) := by
  obtain ⟨m, rfl⟩ := Int.eq_ofNat_of_zero_le (by omega : 0 ≤ n)
  rw [Int.tmod_eq_emod (by omega) (by omega)]
  simp

theorem roll_die_eq (numSides : Int) (g : Rng) (h : 1 ≤ numSides) :
    roll_die numSides g = .ok (((g.peek % numSides.toNat : Nat) : Int) + 1, g.next) := by
  simp [roll_die, random_number, h, tmod_draw, Rng.peek, Rng.next]

theorem setup_doors_eq (numDoors : Int) (g : Rng) (h : 1 ≤ numDoors) :
    setup_doors numDoors g = .ok
      (⟨(List.range numDoors.toNat).map (fun i => decide (i = g.peek % numDoors.toNat)),
        List.replicate numDoors.toNat false⟩, g.next) := by
  unfold setup_doors
  rw [if_pos (by omega), roll_die_eq _ _ h]
  have e1 : (fun i : Nat => decide ((i : Int) = ((g.peek % numDoors.toNat : Nat) : Int) + 1 - 1))
      = (fun i => decide (i = g.peek % numDoors.toNat)) := by
    funext i
    congr 1
    apply propext
    omega
  simp only [e1, List.map_const', List.length_range]

/-- The prize row built by `setup_doors` when the prize is at index `p`. -/
theorem prize_row_get (n p i : Nat) (hi : i < n) :
    ((List.range n).map (fun i => decide (i = p)))[i]? = some (decide (i = p)) := by
  simp [List.getElem?_range, hi]

theorem reveal_scan_eq (n p fuel : Nat) (hn : 3 ≤ n) :
    reveal_scan ((List.range n).map (fun i => decide (i = p))) 0 (fuel + 3) 0
      = .ok (if p = 1 then 2 else 1) := by
  have h1 := prize_row_get n p 1 (by omega)
  have h2 := prize_row_get n p 2 (by omega)
  by_cases hp : p = 1
  · subst hp
    simp [reveal_scan, readDoor, h1, h2]
  · have hp1 : ¬ (1 = p) := fun h => hp h.symm
    simp [reveal_scan, readDoor, h1, hp, hp1]

theorem switch_scan_eq (losingDoor : Nat) (h : losingDoor = 1 ∨ losingDoor = 2) :
    switch_scan losingDoor 0 3 0 = .ok (if losingDoor = 1 then 2 else 1) := by
  rcases h with h | h <;> subst h <;> rfl

theorem play_eq (numDoors : Int) (g : Rng) (h : 3 ≤ numDoors) :
    play numDoors g = .ok
      (let p := g.peek % numDoors.toNat
       let prize := (List.range numDoors.toNat).map (fun i => decide (i = p))
       let closed := List.replicate numDoors.toNat false
       let host := if p = 1 then 2 else 1
       let other := if p = 1 then 1 else 2
       (⟨⟨prize, closed⟩, host, ⟨prize, closed.set host true⟩, other,
         ⟨prize, (closed.set host true).set other true⟩, decide (p = 1 ∨ p = 2)⟩, g.next)) := by
  have hn : 3 ≤ numDoors.toNat := by omega
  unfold play
  rw [setup_doors_eq _ _ (by omega)]
  generalize numDoors.toNat = n at hn
  have l1 : 1 < n := by omega
  have l2 : 2 < n := by omega
  simp only [List.length_map, List.length_range]
  rw [show n + 2 = (n - 1) + 3 by omega, reveal_scan_eq _ _ _ hn]
  by_cases hp : g.peek % n = 1
  · have h1 := prize_row_get n 1 1 (by omega)
    simp only [hp, if_true]
    rw [switch_scan_eq 2 (Or.inr rfl)]
    simp [writeDoor, readDoor, h1, l1, l2]
  · have h2 := prize_row_get n (g.peek % n) 2 (by omega)
    simp only [hp, if_false]
    rw [switch_scan_eq 1 (Or.inl rfl)]
    simp [writeDoor, readDoor, h2, l1, l2]
    exact eq_comm

/-! ## Lemmas: tally, trial, batch -/

theorem record_sum (rs rs1 : Results) (w : Bool) (h : record rs w = .ok rs1) :
    rs1.wins + rs1.losses = rs.wins + rs.losses + 1 ∧ rs.wins ≤ rs1.wins ∧
      rs.losses ≤ rs1.losses := by
  unfold record int_incr at h
  cases w
  · by_cases hc : rs.losses < INT_MAX
    · simp [hc] at h
      subst h
      simp
      omega
    · simp [hc] at h
  · by_cases hc : rs.wins < INT_MAX
    · simp [hc] at h
      subst h
      simp
      omega
    · simp [hc] at h

theorem record_ok (rs : Results) (w : Bool) (hw : rs.wins < INT_MAX)
    (hl : rs.losses < INT_MAX) :
    record rs w = .ok (if w = false then { rs with losses := rs.losses + 1 }
      else { rs with wins := rs.wins + 1 }) := by
  cases w <;> simp [record, int_incr, hw, hl]

theorem setup_doors_rng (numDoors : Int) (g g1 : Rng) (d : Doors)
    (h : setup_doors numDoors g = .ok (d, g1)) : g1 = g.next := by
  by_cases hn : 1 ≤ numDoors
  · rw [setup_doors_eq _ _ hn] at h
    simp at h
    exact h.2.symm
  · simp [setup_doors, hn] at h

theorem play_rng (numDoors : Int) (g g1 : Rng) (t : Trial)
    (h : play numDoors g = .ok (t, g1)) : g1 = g.next := by
  unfold play at h
  split at h
  · simp at h
  · rename_i doors g2 hs
    have := setup_doors_rng _ _ _ _ hs
    subst this
    simp only [] at h
    repeat' (split at h <;> try simp at h)
    exact h.2.symm

theorem trial_sum (numDoors : Int) (rs rs1 : Results) (g g1 : Rng) (t : Trial)
    (h : trial numDoors rs g = .ok (t, rs1, g1)) :
    rs1.wins + rs1.losses = rs.wins + rs.losses + 1 ∧ rs.wins ≤ rs1.wins ∧
      rs.losses ≤ rs1.losses ∧ g1 = g.next := by
  unfold trial at h
  split at h
  · simp at h
  · rename_i t0 g2 hp
    split at h
    · simp at h
    · rename_i rs2 hr
      simp at h
      obtain ⟨_, h2, h3⟩ := h
      subst h2 h3
      have := record_sum _ _ _ hr
      exact ⟨this.1, this.2.1, this.2.2, play_rng _ _ _ _ hp⟩

theorem batch_loop_sum (numDoors : Int) (k : Nat) :
    ∀ (rs rs1 : Results) (g g1 : Rng) (ts : List Trial),
      batch_loop numDoors k rs g = .ok (ts, rs1, g1) →
      rs1.wins + rs1.losses = rs.wins + rs.losses + k ∧ rs.wins ≤ rs1.wins ∧
        rs.losses ≤ rs1.losses ∧ ts.length = k ∧ g1 = ⟨g.draws, g.pos + k⟩ := by
  induction k with
  | zero =>
    intro rs rs1 g g1 ts h
    simp [batch_loop] at h
    obtain ⟨h1, h2, h3⟩ := h
    subst h1 h2 h3
    simp
  | succ k ih =>
    intro rs rs1 g g1 ts h
    unfold batch_loop at h
    split at h
    · simp at h
    · rename_i t rs2 g2 ht
      split at h
      · simp at h
      · rename_i ts2 rs3 g3 hb
        simp at h
        obtain ⟨h1, h2, h3⟩ := h
        subst h1 h2 h3
        have a := trial_sum _ _ _ _ _ _ ht
        have b := ih _ _ _ _ _ hb
        obtain ⟨a1, a2, a3, a4⟩ := a
        obtain ⟨b1, b2, b3, b4, b5⟩ := b
        subst a4
        refine ⟨?_, ?_, ?_, ?_, ?_⟩
        · push_cast; omega
        · omega
        · omega
        · simp [b4]
        · rw [b5]; simp [Rng.next]; omega

theorem trial_ok (numDoors : Int) (rs : Results) (g : Rng) (hd : 3 ≤ numDoors)
    (hw : rs.wins < INT_MAX) (hl : rs.losses < INT_MAX) :
    ∃ t rs1, trial numDoors rs g = .ok (t, rs1, g.next) := by
  unfold trial
  rw [play_eq _ _ hd]
  simp only []
  rw [record_ok _ _ hw hl]
  exact ⟨_, _, rfl⟩

theorem batch_loop_ok (numDoors : Int) (hd : 3 ≤ numDoors) (k : Nat) :
    ∀ (rs : Results) (g : Rng), 0 ≤ rs.wins → 0 ≤ rs.losses →
      rs.wins + rs.losses + k ≤ INT_MAX →
      ∃ ts rs1, batch_loop numDoors k rs g = .ok (ts, rs1, ⟨g.draws, g.pos + k⟩) := by
  induction k with
  | zero => intro rs g _ _ _; exact ⟨[], rs, rfl⟩
  | succ k ih =>
    intro rs g hw hl hs
    obtain ⟨t, rs1, ht⟩ := trial_ok numDoors rs g hd (by push_cast at hs; omega)
      (by push_cast at hs; omega)
    obtain ⟨a1, a2, a3, _⟩ := trial_sum _ _ _ _ _ _ ht
    obtain ⟨ts, rs2, hb⟩ := ih rs1 g.next (by omega) (by omega) (by push_cast at hs; omega)
    refine ⟨t :: ts, rs2, ?_⟩
    unfold batch_loop
    rw [ht]
    simp only []
    rw [hb]
    simp [Rng.next]
    omega

/-! ## Lemmas: the session loop -/

/-- The loop condition `playAgain == 'Y' || playAgain == 'y'`. -/
theorem main_loop_zero (s : Session) :
    main_loop 0 s = if s.playAgain = 'Y' ∨ s.playAgain = 'y' then .ok (.running, s)
      else .ok (.finished, s) := rfl

theorem main_loop_inv (P : Session → Prop)
    (step : ∀ s s1, P s → (s.playAgain = 'Y' ∨ s.playAgain = 'y') →
      loop_body s = .ok s1 → P s1) (fuel : Nat) :
    ∀ (s s1 : Session) (st : Status), P s → main_loop fuel s = .ok (st, s1) →
      P s1 ∧ (st = .finished ↔ ¬ (s1.playAgain = 'Y' ∨ s1.playAgain = 'y')) := by
  induction fuel with
  | zero =>
    intro s s1 st hP h
    rw [main_loop_zero] at h
    split at h
    · rename_i hc
      simp at h
      obtain ⟨h1, h2⟩ := h
      subst h1 h2
      exact ⟨hP, by simp [hc]⟩
    · rename_i hc
      simp at h
      obtain ⟨h1, h2⟩ := h
      subst h1 h2
      exact ⟨hP, by simp [hc]⟩
  | succ fuel ih =>
    intro s s1 st hP h
    unfold main_loop at h
    split at h
    · rename_i hc
      split at h
      · simp at h
      · rename_i s2 hb
        exact ih s2 s1 st (step s s2 hP hc hb) h
    · rename_i hc
      simp at h
      obtain ⟨h1, h2⟩ := h
      subst h1 h2
      exact ⟨hP, by simp [hc]⟩

theorem printed_totals_append (a b : List Event) :
    printed_totals (a ++ b) = printed_totals a ++ printed_totals b := by
  induction a with
  | nil => rfl
  | cons e es ih => cases e <;> simp [printed_totals, ih]

theorem running_sums_snoc (xs : List Int) (x : Int) :
    ∀ acc, running_sums acc (xs ++ [x]) = running_sums acc xs ++ [acc + xs.sum + x] := by
  induction xs with
  | nil => intro acc; simp [running_sums]
  | cons y ys ih => intro acc; simp [running_sums, ih]; omega

theorem loop_body_spec (s s1 : Session) (h : loop_body s = .ok s1) :
    ∃ stored in1 ts, scan_int s.stdin = .ok (stored, in1) ∧
      batch numDoors (stored.getD 1) s.results s.rng = .ok (ts, s1.results, s1.rng) ∧
      s1.stdout = s.stdout ++ [Event.howMany,
        Event.tally s1.results.wins s1.results.losses, Event.playAgainPrompt] ∧
      s1.log = s.log ++ [⟨stored, stored.getD 1, ts, (scan_char in1).1⟩] ∧
      s1.playAgain = ((scan_char in1).1).getD s.playAgain ∧
      s1.stdin = (scan_char in1).2 := by
  unfold loop_body at h
  simp only [] at h
  split at h
  · simp at h
  · rename_i stored in1 hs
    have e : ∀ o : Option Int, (match o with | some n => n | none => (1 : Int)) = o.getD 1 := by
      intro o; cases o <;> rfl
    simp only [e] at h
    split at h
    · simp at h
    · rename_i ts rs1 g1 hb
      simp at h
      subst h
      refine ⟨stored, in1, ts, hs, hb, by simp, rfl, ?_, rfl⟩
      cases (scan_char in1).1 <;> rfl

theorem tally_step (s s1 : Session) (h : loop_body s = .ok s1)
    (hw : 0 ≤ s.results.wins) (hl : 0 ≤ s.results.losses)
    (hsum : s.results.wins + s.results.losses = (s.log.map trials_of).sum)
    (hout : printed_totals s.stdout = running_sums 0 (s.log.map trials_of)) :
    0 ≤ s1.results.wins ∧ 0 ≤ s1.results.losses ∧
      s1.results.wins + s1.results.losses = (s1.log.map trials_of).sum ∧
      printed_totals s1.stdout = running_sums 0 (s1.log.map trials_of) := by
  obtain ⟨stored, in1, ts, _, hb, ho, hlog, _, _⟩ := loop_body_spec s s1 h
  obtain ⟨b1, b2, b3, _, _⟩ := batch_loop_sum _ _ _ _ _ _ _ hb
  have hk : ((stored.getD 1).toNat : Int) = max (stored.getD 1) 0 := by omega
  have hs1 : s1.results.wins + s1.results.losses
      = (s.log.map trials_of).sum + max (stored.getD 1) 0 := by omega
  refine ⟨by omega, by omega, ?_, ?_⟩
  · rw [hlog]
    simp [trials_of]
    exact hs1
  · rw [ho, hlog, printed_totals_append, hout]
    simp [running_sums_snoc, printed_totals, trials_of]
    exact hs1

/-- C1 (amended): `results` is zeroed once, before the `while` loop, and never
reset, so the tally printed at the end of a batch counts the trials of all
batches run so far in the session: in every run of `main` the sums
`wins + losses` printed are the running sums of the trial counts
`max numPlays 0` of the batches executed; in particular the first total printed
is the trial count `max numPlays 0` of the first batch. -/
theorem printed_tally_is_cumulative (fuel : Nat) (draws : Nat → Nat) (stdin : List Char)
    (st : Status) (s : Session) (h : main fuel draws stdin = .ok (st, s)) :
    printed_totals s.stdout = running_sums 0 (s.log.map trials_of) ∧
      (printed_totals s.stdout).head? = (s.log.map trials_of).head? := by
  have key : printed_totals s.stdout = running_sums 0 (s.log.map trials_of) := by
    unfold main at h
    simp only [] at h
    split at h
    · simp at h
    · rename_i s2 hm
      have := main_loop_inv
        (fun s => 0 ≤ s.results.wins ∧ 0 ≤ s.results.losses ∧
          s.results.wins + s.results.losses = (s.log.map trials_of).sum ∧
          printed_totals s.stdout = running_sums 0 (s.log.map trials_of))
        (fun a b hP _ hb => tally_step a b hb hP.1 hP.2.1 hP.2.2.1 hP.2.2.2)
        fuel _ _ _ (by simp [printed_totals, running_sums]) hm
      simp at h
      obtain ⟨_, h2⟩ := h
      subst h2
      simp [printed_totals_append, printed_totals, this.1.2.2.2]
    · rename_i s2 hm
      have := main_loop_inv
        (fun s => 0 ≤ s.results.wins ∧ 0 ≤ s.results.losses ∧
          s.results.wins + s.results.losses = (s.log.map trials_of).sum ∧
          printed_totals s.stdout = running_sums 0 (s.log.map trials_of))
        (fun a b hP _ hb => tally_step a b hb hP.1 hP.2.1 hP.2.2.1 hP.2.2.2)
        fuel _ _ _ (by simp [printed_totals, running_sums]) hm
      simp at h
      obtain ⟨_, h2⟩ := h
      subst h2
      exact this.1.2.2.2
  refine ⟨key, ?_⟩
  rw [key]
  cases s.log.map trials_of with
  | nil => rfl
  | cons x xs => simp [running_sums]

/-- C1 (as stated) fails: for the input `2\nY\n1\nN\n` the two batches have
sizes 2 and 1, and the totals printed are 2 and 3, not 2 and 1. -/
theorem printed_tally_not_per_batch :
    ∃ st s, main 2 (fun i => i) ['2', '\n', 'Y', '\n', '1', '\n', 'N', '\n'] = .ok (st, s) ∧
      s.log.map (fun (b : BatchLog) => b.numPlays) = [2, 1] ∧
      printed_totals s.stdout = [2, 3] ∧
      printed_totals s.stdout ≠ s.log.map (fun (b : BatchLog) => b.numPlays) :=
  ⟨_, _, rfl, by decide, by decide, by decide⟩

/-- C1 (amended), at the input `2\nY\n1\nN\n`: the totals printed are 2 and 3. -/
theorem printed_tally_is_cumulative_witness :
    ∃ st s, main 2 (fun i => i) ['2', '\n', 'Y', '\n', '1', '\n', 'N', '\n'] = .ok (st, s) ∧
      printed_totals s.stdout = [2, 3] ∧ s.log.map trials_of = [2, 1] :=
  ⟨_, _, rfl,
    ((printed_tally_is_cumulative 2 (fun i => i)
      ['2', '\n', 'Y', '\n', '1', '\n', 'N', '\n'] _ _ rfl).1).trans (by decide),
    by decide⟩

/-- C2: for every door count `numDoors ≥ 3` and every prize position `p` (the
draw reduced modulo `numDoors`), the host-reveal scan of the trial terminates
at a door `h` that is in range, is not the player's choice `0`, is not the prize
door, and is the least such index: `h = 1` if `p ≠ 1`, otherwise `h = 2`. -/
theorem host_reveal_least_losing_door (numDoors : Int) (p : Nat) (g : Rng)
    (hd : 3 ≤ numDoors) (hp : g.peek % numDoors.toNat = p) :
    (p : Int) < numDoors ∧
    ∃ t g1, play numDoors g = .ok (t, g1) ∧
      reveal_scan t.initial.prize 0 (t.initial.prize.length + 2) 0 = .ok t.losingDoor ∧
      (∀ i : Nat, (i : Int) < numDoors → t.initial.prize[i]? = some (decide (i = p))) ∧
      (t.losingDoor : Int) < numDoors ∧ t.losingDoor ≠ 0 ∧ t.losingDoor ≠ p ∧
      t.initial.prize[t.losingDoor]? = some false ∧
      (∀ j : Nat, j ≠ 0 → j ≠ p → t.losingDoor ≤ j) ∧
      t.losingDoor = (if p ≠ 1 then 1 else 2) := by
  have hn : 3 ≤ numDoors.toNat := by omega
  have hpn : p < numDoors.toNat := by rw [← hp]; exact Nat.mod_lt _ (by omega)
  refine ⟨by omega, _, _, play_eq numDoors g hd, ?_⟩
  simp only [hp, List.length_map, List.length_range]
  refine ⟨?_, ?_, ?_, ?_, ?_, ?_, ?_, ?_⟩
  · rw [show numDoors.toNat + 2 = (numDoors.toNat - 1) + 3 by omega, reveal_scan_eq _ _ _ hn]
  · intro i hi
    exact prize_row_get _ _ _ (by omega)
  · split <;> omega
  · split <;> omega
  · split <;> omega
  · by_cases h1 : p = 1
    · rw [if_pos h1, prize_row_get _ _ _ (by omega)]
      simp [h1]
    · rw [if_neg h1, prize_row_get _ _ _ (by omega)]
      simp
      omega
  · intro j hj0 hjp
    split <;> omega
  · by_cases h1 : p = 1 <;> simp [h1]

/-- C2 at `numDoors = 3` with the prize at index 1: the host opens door 2. -/
theorem host_reveal_least_losing_door_witness :
    (3 : Int) ≤ 3 ∧ (⟨fun i => i, 1⟩ : Rng).peek % (3 : Int).toNat = 1 ∧
    ∃ t g1, play 3 ⟨fun i => i, 1⟩ = .ok (t, g1) ∧ t.losingDoor = 2 :=
  ⟨by decide, by decide,
    match (host_reveal_least_losing_door 3 1 ⟨fun i => i, 1⟩ (by decide) (by decide)).2 with
    | ⟨t, g1, h, hrest⟩ => ⟨t, g1, h, by simpa using hrest.2.2.2.2.2.2.2⟩⟩

/-- C3: for `numDoors = 3` and every prize position the switch lands on the
single remaining closed door: the final choice is in range, is not the original
choice `0`, is not the door the host opened, is closed before the switch, and
is the only index below 3 with these properties. -/
theorem switch_lands_on_remaining_closed_door (g : Rng) :
    ∃ t g1, play 3 g = .ok (t, g1) ∧
      switch_scan t.losingDoor 0 3 0 = .ok t.choice ∧
      t.choice < 3 ∧ t.choice ≠ 0 ∧ t.choice ≠ t.losingDoor ∧
      t.revealed.isOpen[t.choice]? = some false ∧
      (∀ j : Nat, j < 3 → j ≠ 0 → j ≠ t.losingDoor →
        t.revealed.isOpen[j]? = some false → j = t.choice) ∧
      (∀ j : Nat, j < 3 → (j = t.choice ↔
        (j ≠ 0 ∧ t.revealed.isOpen[j]? = some false))) := by
  refine ⟨_, _, play_eq 3 g (by decide), ?_⟩
  have h3 : (3 : Int).toNat = 3 := rfl
  simp only [h3]
  by_cases h1 : g.peek % 3 = 1
  · simp only [h1, if_true]
    refine ⟨rfl, by decide, by decide, by decide, by decide, ?_, ?_⟩
    · intro j hj; interval_cases j <;> simp
    · intro j hj; interval_cases j <;> simp
  · simp only [h1, if_false]
    refine ⟨rfl, by decide, by decide, by decide, by decide, ?_, ?_⟩
    · intro j hj; interval_cases j <;> simp
    · intro j hj; interval_cases j <;> simp

theorem trial_eq (numDoors : Int) (rs : Results) (g : Rng) (hd : 3 ≤ numDoors)
    (hw : rs.wins < INT_MAX) (hl : rs.losses < INT_MAX) :
    ∃ t, play numDoors g = .ok (t, g.next) ∧
      trial numDoors rs g = .ok (t, (if t.win = false then { rs with losses := rs.losses + 1 }
        else { rs with wins := rs.wins + 1 }), g.next) := by
  refine ⟨_, play_eq numDoors g hd, ?_⟩
  unfold trial
  rw [play_eq _ _ hd]
  simp only []
  rw [record_ok _ _ hw hl]

theorem trial_of_play (numDoors : Int) (rs rs1 : Results) (g g1 : Rng) (t : Trial)
    (hp : play numDoors g = .ok (t, g1)) (hr : record rs t.win = .ok rs1) :
    trial numDoors rs g = .ok (t, rs1, g1) := by
  unfold trial
  rw [hp]
  simp only []
  rw [hr]

/-- C4: a batch of 3 trials with 3 doors whose prize draws are congruent to
0, 1, 2 modulo 3: trial 1 host opens 1, switch lands on 2, LOSS; trial 2 host
opens 2, switch lands on 1, WIN; trial 3 host opens 1, switch lands on 2, WIN;
the tally, starting from zero, ends at 2 wins and 1 loss. -/
theorem scenario_prizes_0_1_2 (g : Rng) (h0 : g.draws g.pos % 3 = 0)
    (h1 : g.draws (g.pos + 1) % 3 = 1) (h2 : g.draws (g.pos + 2) % 3 = 2) :
    ∃ t1 t2 t3 g1, batch 3 3 ⟨0, 0⟩ g = .ok ([t1, t2, t3], ⟨2, 1⟩, g1) ∧
      t1.initial.prize = [true, false, false] ∧
      t1.losingDoor = 1 ∧ t1.choice = 2 ∧ t1.win = false ∧
      t2.initial.prize = [false, true, false] ∧
      t2.losingDoor = 2 ∧ t2.choice = 1 ∧ t2.win = true ∧
      t3.initial.prize = [false, false, true] ∧
      t3.losingDoor = 1 ∧ t3.choice = 2 ∧ t3.win = true := by
  have e1 := play_eq 3 g (by decide)
  have e2 := play_eq 3 g.next (by decide)
  have e3 := play_eq 3 g.next.next (by decide)
  have h3 : (3 : Int).toNat = 3 := rfl
  have p1 : g.peek % 3 = 0 := h0
  have p2 : g.next.peek % 3 = 1 := h1
  have p3 : g.next.next.peek % 3 = 2 := h2
  simp only [h3, p1, p2, p3] at e1 e2 e3
  obtain ⟨t1, r1, q1⟩ : ∃ t, trial 3 ⟨0, 0⟩ g = .ok (t, ⟨0, 1⟩, g.next) ∧
      (t.initial.prize = [true, false, false] ∧ t.losingDoor = 1 ∧ t.choice = 2 ∧
        t.win = false) :=
    ⟨_, trial_of_play 3 ⟨0, 0⟩ ⟨0, 1⟩ _ _ _ e1 rfl, by decide⟩
  obtain ⟨t2, r2, q2⟩ : ∃ t, trial 3 ⟨0, 1⟩ g.next = .ok (t, ⟨1, 1⟩, g.next.next) ∧
      (t.initial.prize = [false, true, false] ∧ t.losingDoor = 2 ∧ t.choice = 1 ∧
        t.win = true) :=
    ⟨_, trial_of_play 3 ⟨0, 1⟩ ⟨1, 1⟩ _ _ _ e2 rfl, by decide⟩
  obtain ⟨t3, r3, q3⟩ : ∃ t, trial 3 ⟨1, 1⟩ g.next.next = .ok (t, ⟨2, 1⟩, g.next.next.next) ∧
      (t.initial.prize = [false, false, true] ∧ t.losingDoor = 1 ∧ t.choice = 2 ∧
        t.win = true) :=
    ⟨_, trial_of_play 3 ⟨1, 1⟩ ⟨2, 1⟩ _ _ _ e3 rfl, by decide⟩
  refine ⟨t1, t2, t3, g.next.next.next, ?_, q1.1, q1.2.1, q1.2.2.1, q1.2.2.2,
    q2.1, q2.2.1, q2.2.2.1, q2.2.2.2, q3⟩
  show batch_loop 3 3 ⟨0, 0⟩ g = _
  simp only [batch_loop, r1, r2, r3]

/-- C4 at the draws 0, 1, 2. -/
theorem scenario_prizes_0_1_2_witness :
    (∃ t1 t2 t3 g1, batch 3 3 ⟨0, 0⟩ ⟨fun i => i, 0⟩ = .ok ([t1, t2, t3], ⟨2, 1⟩, g1)) ∧
    ((batch 3 3 ⟨0, 0⟩ ⟨fun i => i, 0⟩).toOption.map
      (fun x => x.1.map (fun (t : Trial) => (t.losingDoor, t.choice, t.win))))
      = some [(1, 2, false), (2, 1, true), (1, 2, true)] :=
  ⟨match scenario_prizes_0_1_2 ⟨fun i => i, 0⟩ (by decide) (by decide) (by decide) with
    | ⟨t1, t2, t3, g1, h, _⟩ => ⟨t1, t2, t3, g1, h⟩,
   by decide⟩

theorem outcome_three (r : Nat) : outcome 3 r = some (decide (r % 3 = 1 ∨ r % 3 = 2)) := by
  unfold outcome
  rw [play_eq 3 _ (by decide)]
  rfl

theorem win_count_succ (M : Nat) :
    win_count (M + 1) = win_count M + (if M % 3 = 1 ∨ M % 3 = 2 then 1 else 0) := by
  unfold win_count
  rw [List.range_succ, List.filter_append, List.length_append]
  congr 1
  by_cases h : M % 3 = 1 ∨ M % 3 = 2
  · simp [outcome_three, h]
  · simp [outcome_three, h]

theorem win_count_eq (M : Nat) : win_count M + (M + 2) / 3 = M := by
  induction M with
  | zero => rfl
  | succ M ih =>
    rw [win_count_succ]
    split <;> omega

/-- C5: with 3 doors the switch strategy wins at a rate within 0.02 of 2/3:
for every generator range size `M ≥ 32768`, among the raw draws `r < M` (each
placing the prize at index `r mod 3`) the exact fraction of draws whose trial is
a WIN differs from 2/3 by at most 1/50. -/
theorem switch_win_rate_near_two_thirds (M : Nat) (hM : 32768 ≤ M) :
    |(win_count M : ℚ) / (M : ℚ) - 2 / 3| ≤ 1 / 50 := by
  have hc := win_count_eq M
  have h1 : 3 * win_count M ≤ 2 * M := by omega
  have h2 : 2 * M ≤ 3 * win_count M + 2 := by omega
  have q1 : (3 : ℚ) * win_count M ≤ 2 * M := by exact_mod_cast h1
  have q2 : (2 : ℚ) * M ≤ 3 * win_count M + 2 := by exact_mod_cast h2
  have qM : (32768 : ℚ) ≤ M := by exact_mod_cast hM
  have hpos : (0 : ℚ) < M := by linarith
  rw [abs_le]
  constructor
  · rw [le_sub_iff_add_le, le_div_iff₀ hpos]
    linarith
  · rw [sub_le_iff_le_add, div_le_iff₀ hpos]
    linarith

/-- C5 at `M = 32768`. -/
theorem switch_win_rate_near_two_thirds_witness :
    32768 ≤ 32768 ∧ |(win_count 32768 : ℚ) / ((32768 : Nat) : ℚ) - 2 / 3| ≤ 1 / 50 :=
  ⟨le_refl _, switch_win_rate_near_two_thirds 32768 (le_refl _)⟩

theorem count_prize_row (p n : Nat) :
    ((List.range n).map (fun i => decide (i = p))).count true = if p < n then 1 else 0 := by
  induction n with
  | zero => rfl
  | succ n ih =>
    rw [List.range_succ, List.map_append, List.count_append, ih]
    by_cases h : p < n
    · have : ¬ n = p := by omega
      have h1 : p < n + 1 := by omega
      simp [h, h1, this]
    · by_cases h2 : n = p
      · simp [h2]
      · have : ¬ p < n + 1 := by omega
        simp [h, h2, this]

/-- C6: for every `numDoors ≥ 1` and every raw draw, `setup_doors(numDoors)`
returns a door set of `numDoors` doors in which exactly one door has the prize
(the door at index `r mod numDoors`, which is in range), every other door has
no prize, and every door is closed. -/
theorem setup_doors_exactly_one_prize (numDoors : Int) (g : Rng) (h : 1 ≤ numDoors) :
    ∃ d, setup_doors numDoors g = .ok (d, g.next) ∧
      (d.prize.length : Int) = numDoors ∧ (d.isOpen.length : Int) = numDoors ∧
      ((g.peek % numDoors.toNat : Nat) : Int) < numDoors ∧
      (((g.peek % numDoors.toNat : Nat) : Int) = (g.peek : Int) % numDoors) ∧
      (∀ i : Nat, (i : Int) < numDoors →
        d.prize[i]? = some (decide (i = g.peek % numDoors.toNat))) ∧
      d.prize.count true = 1 ∧
      (∀ i : Nat, (i : Int) < numDoors → d.isOpen[i]? = some false) := by
  have hlt : g.peek % numDoors.toNat < numDoors.toNat := Nat.mod_lt _ (by omega)
  refine ⟨_, setup_doors_eq numDoors g h, ?_, ?_, ?_, ?_, ?_, ?_, ?_⟩
  · simp; omega
  · simp; omega
  · omega
  · rw [Int.natCast_mod, Int.toNat_of_nonneg (by omega)]
  · intro i hi
    exact prize_row_get _ _ _ (by omega)
  · rw [count_prize_row, if_pos hlt]
  · intro i hi
    have : i < numDoors.toNat := by omega
    simp [this]

/-- C6 at `numDoors = 3` and the draw 4: the prize is at index 1. -/
theorem setup_doors_exactly_one_prize_witness :
    (1 : Int) ≤ 3 ∧ ∃ d, setup_doors 3 ⟨fun i => i, 4⟩ = .ok (d, Rng.next ⟨fun i => i, 4⟩) ∧
      d.prize = [false, true, false] ∧ d.isOpen = [false, false, false] :=
  ⟨by decide,
    match setup_doors_exactly_one_prize 3 ⟨fun i => i, 4⟩ (by decide) with
    | ⟨d, hd, _⟩ => ⟨d, hd, by
        have e : setup_doors 3 ⟨fun i => i, 4⟩
            = .ok (⟨[false, true, false], [false, false, false]⟩, Rng.next ⟨fun i => i, 4⟩) := rfl
        rw [e] at hd
        simp at hd
        rw [← hd]
        exact ⟨rfl, rfl⟩⟩⟩

/-- C7: for every `numSides ≥ 1` and every raw draw `r` returned by
`random_number`, `roll_die(numSides)` returns `(r mod numSides) + 1`, which lies
between 1 and `numSides`. -/
theorem roll_die_in_range (numSides : Int) (g : Rng) (h : 1 ≤ numSides) :
    0 ≤ (random_number g).1 ∧
    ∃ v, roll_die numSides g = .ok (v, (random_number g).2) ∧
      v = (random_number g).1 % numSides + 1 ∧ 1 ≤ v ∧ v ≤ numSides := by
  have hr : 0 ≤ (random_number g).1 := by simp [random_number]
  refine ⟨hr, _, roll_die_eq numSides g h, ?_, ?_, ?_⟩
  · simp only [random_number, Rng.peek]
    rw [Int.natCast_mod, Int.toNat_of_nonneg (by omega)]
  · omega
  · have : g.peek % numSides.toNat < numSides.toNat := Nat.mod_lt _ (by omega)
    omega

/-- C7 at `numSides = 6` and the draw 7: the result is 2. -/
theorem roll_die_in_range_witness :
    (1 : Int) ≤ 6 ∧ ∃ v, roll_die 6 ⟨fun i => i, 7⟩ = .ok (v, Rng.next ⟨fun i => i, 7⟩) ∧ v = 2 :=
  ⟨by decide,
    match (roll_die_in_range 6 ⟨fun i => i, 7⟩ (by decide)).2 with
    | ⟨v, hv, he, _⟩ => ⟨v, hv, by rw [he]; rfl⟩⟩

theorem play_one (g : Rng) : play 1 g = .error (.outOfBounds 1 1) := by
  unfold play
  rw [setup_doors_eq 1 g (by decide)]
  have h1 : (1 : Int).toNat = 1 := rfl
  simp only [h1, Nat.mod_one]
  rfl

theorem play_two (g : Rng) : play 2 g = .error (.outOfBounds 2 2) := by
  unfold play
  rw [setup_doors_eq 2 g (by decide)]
  have h2 : (2 : Int).toNat = 2 := rfl
  simp only [h2]
  rcases Nat.mod_two_eq_zero_or_one g.peek with h | h <;> rw [h] <;> rfl

/-- The fuel given to the two scans of a trial is never exhausted, whatever the
door count. -/
theorem play_fuel_suffices (numDoors : Int) (g : Rng) :
    play numDoors g ≠ .error .loopFuel := by
  by_cases h3 : 3 ≤ numDoors
  · rw [play_eq numDoors g h3]
    simp
  · by_cases h1 : 1 ≤ numDoors
    · have : numDoors = 1 ∨ numDoors = 2 := by omega
      rcases this with h | h <;> subst h
      · rw [play_one]; simp
      · rw [play_two]; simp
    · simp [play, setup_doors, h1]

theorem main_loop_done (fuel : Nat) (s : Session)
    (h : ¬ (s.playAgain = 'Y' ∨ s.playAgain = 'y')) :
    main_loop fuel s = .ok (.finished, s) := by
  cases fuel <;> simp [main_loop, h]

theorem main_loop_continue (fuel : Nat) (s : Session)
    (h : s.playAgain = 'Y' ∨ s.playAgain = 'y') :
    main_loop (fuel + 1) s =
      match loop_body s with
      | .error e => .error e
      | .ok s1 => main_loop fuel s1 := by
  rw [main_loop, if_pos h]

theorem loop_body_ok (s : Session) (stored : Option Int) (in1 : List Char)
    (hs : scan_int s.stdin = .ok (stored, in1))
    (hw : 0 ≤ s.results.wins) (hl : 0 ≤ s.results.losses)
    (hsum : s.results.wins + s.results.losses + max (stored.getD 1) 0 ≤ INT_MAX) :
    ∃ ts rs1, loop_body s = .ok
      { results := rs1, playAgain := ((scan_char in1).1).getD s.playAgain,
        rng := ⟨s.rng.draws, s.rng.pos + (stored.getD 1).toNat⟩,
        stdin := (scan_char in1).2,
        stdout := s.stdout ++ [Event.howMany, Event.tally rs1.wins rs1.losses,
          Event.playAgainPrompt],
        log := s.log ++ [⟨stored, stored.getD 1, ts, (scan_char in1).1⟩] } ∧
      ts.length = (stored.getD 1).toNat ∧
      rs1.wins + rs1.losses = s.results.wins + s.results.losses + max (stored.getD 1) 0 ∧
      s.results.wins ≤ rs1.wins ∧ s.results.losses ≤ rs1.losses := by
  have hk : ((stored.getD 1).toNat : Int) = max (stored.getD 1) 0 := by omega
  obtain ⟨ts, rs1, hb⟩ := batch_loop_ok numDoors (by decide) (stored.getD 1).toNat
    s.results s.rng hw hl (by omega)
  obtain ⟨b1, b2, b3, b4, _⟩ := batch_loop_sum _ _ _ _ _ _ _ hb
  refine ⟨ts, rs1, ?_, b4, by omega, b2, b3⟩
  have e : ∀ o : Option Int, (match o with | some n => n | none => (1 : Int)) = o.getD 1 := by
    intro o; cases o <;> rfl
  have e2 : ∀ (o : Option Char) (d : Char), (match o with | some c => c | none => d) = o.getD d := by
    intro o d; cases o <;> rfl
  unfold loop_body
  simp only [hs, e, e2, batch, hb, List.append_assoc, List.singleton_append]

theorem replay_scenario_loop (fuel : Nat) (draws : Nat → Nat) :
    ∃ s, main_loop (fuel + 2)
        { results := ⟨0, 0⟩, playAgain := 'Y', rng := ⟨draws, 0⟩,
          stdin := ['2', '\n', 'Y', '\n', '1', '\n', 'N', '\n'],
          stdout := [Event.intro], log := [] } = .ok (.finished, s) ∧
      s.log.map (fun (b : BatchLog) => b.numPlays) = [2, 1] ∧
      s.log.map (fun (b : BatchLog) => b.trials.length) = [2, 1] ∧
      s.log.map (fun (b : BatchLog) => b.reply) = [some 'Y', some 'N'] := by
  have hmax : INT_MAX = 2147483647 := rfl
  obtain ⟨ts1, rs1, hb1, hl1, hs1, hw1, hlo1⟩ := loop_body_ok
    { results := ⟨0, 0⟩, playAgain := 'Y', rng := ⟨draws, 0⟩,
      stdin := ['2', '\n', 'Y', '\n', '1', '\n', 'N', '\n'],
      stdout := [Event.intro], log := [] }
    (some 2) ['\n', 'Y', '\n', '1', '\n', 'N', '\n'] rfl (le_refl (0 : Int)) (le_refl (0 : Int))
    (by show (0 : Int) + 0 + max 2 0 ≤ INT_MAX; decide)
  have c1 : scan_char ['\n', 'Y', '\n', '1', '\n', 'N', '\n']
      = (some 'Y', ['\n', '1', '\n', 'N', '\n']) := rfl
  simp only [c1, Option.getD_some] at hb1 hl1 hs1 hw1 hlo1
  obtain ⟨ts2, rs2, hb2, hl2, _, _, _⟩ := loop_body_ok
    { results := rs1, playAgain := 'Y', rng := ⟨draws, 0 + (2 : Int).toNat⟩,
      stdin := ['\n', '1', '\n', 'N', '\n'],
      stdout := [Event.intro] ++ [Event.howMany, Event.tally rs1.wins rs1.losses,
        Event.playAgainPrompt],
      log := [] ++ [⟨some 2, 2, ts1, some 'Y'⟩] }
    (some 1) ['\n', 'N', '\n'] rfl hw1 hlo1
    (by show rs1.wins + rs1.losses + max 1 0 ≤ INT_MAX; rw [hs1, hmax]; decide)
  have c2 : scan_char ['\n', 'N', '\n'] = (some 'N', ['\n']) := rfl
  simp only [c2, Option.getD_some] at hb2 hl2
  apply Exists.intro
  constructor
  · rw [main_loop_continue _ _ (Or.inl rfl), hb1]
    simp only []
    rw [main_loop_continue _ _ (Or.inl rfl), hb2]
    simp only []
    exact main_loop_done _ _ (by show ¬ ('N' = 'Y' ∨ 'N' = 'y'); decide)
  · have t1 : (2 : Int).toNat = 2 := rfl
    have t2 : (1 : Int).toNat = 1 := rfl
    rw [t1] at hl1
    rw [t2] at hl2
    simp [hl1, hl2]

theorem replies_step (s s1 : Session) (hc : s.playAgain = 'Y' ∨ s.playAgain = 'y')
    (hb : loop_body s = .ok s1)
    (hP : (∀ b ∈ s.log, b.reply ≠ none) →
      ((s.log = [] ∧ s.playAgain = 'Y') ∨ ∃ (ys : List Char) (c : Char),
        s.log.map (fun (b : BatchLog) => b.reply) = ys.map some ++ [some c] ∧
        (∀ y ∈ ys, y = 'Y' ∨ y = 'y') ∧ s.playAgain = c)) :
    (∀ b ∈ s1.log, b.reply ≠ none) →
      ((s1.log = [] ∧ s1.playAgain = 'Y') ∨ ∃ (ys : List Char) (c : Char),
        s1.log.map (fun (b : BatchLog) => b.reply) = ys.map some ++ [some c] ∧
        (∀ y ∈ ys, y = 'Y' ∨ y = 'y') ∧ s1.playAgain = c) := by
  obtain ⟨stored, in1, ts, _, _, _, hlog, hpa, _⟩ := loop_body_spec s s1 hb
  intro hall
  rw [hlog] at hall
  have hall0 : ∀ b ∈ s.log, b.reply ≠ none := fun b hb => hall b (by simp [hb])
  have hlast : (scan_char in1).1 ≠ none := by
    have := hall ⟨stored, stored.getD 1, ts, (scan_char in1).1⟩ (by simp)
    exact this
  obtain ⟨c, hc1⟩ := Option.ne_none_iff_exists'.mp hlast
  rw [hc1] at hpa hlog
  right
  rcases hP hall0 with ⟨h0, _⟩ | ⟨ys, c0, h1, h2, h3⟩
  · refine ⟨[], c, ?_, by simp, hpa⟩
    rw [hlog, h0]
    rfl
  · refine ⟨ys ++ [c0], c, ?_, ?_, hpa⟩
    · rw [hlog, List.map_append, h1]
      simp
    · intro y hy
      rcases List.mem_append.mp hy with h | h
      · exact h2 y h
      · have : y = c0 := by simpa using h
        rw [this, ← h3]
        exact hc

/-- C9: after a batch whose replay character `c` was read, the session runs
another batch if and only if `c` is `Y` or `y`, and otherwise leaves the loop
(and `main` prints `Bye!`); hence in a finished run whose replay reads all
succeeded, the number of batches is the position of the first replay character
that is not `Y`/`y`; and the input `2\nY\n1\nN\n` runs exactly two batches, of
sizes 2 then 1, and ends. -/
theorem replay_iff_yes :
    (∀ (s s1 : Session) (c : Char), loop_body s = .ok s1 →
      s1.log.getLast?.map (fun (b : BatchLog) => b.reply) = some (some c) →
      s1.playAgain = c ∧
      ((c = 'Y' ∨ c = 'y') → ∀ fuel, main_loop (fuel + 1) s1 =
        match loop_body s1 with
        | .error e => .error e
        | .ok s2 => main_loop fuel s2) ∧
      (¬ (c = 'Y' ∨ c = 'y') → ∀ fuel, main_loop fuel s1 = .ok (.finished, s1))) ∧
    (∀ (fuel : Nat) (draws : Nat → Nat) (stdin : List Char) (s : Session),
      main fuel draws stdin = .ok (.finished, s) → (∀ b ∈ s.log, b.reply ≠ none) →
      s.stdout.getLast? = some Event.bye ∧
      ∃ (ys : List Char) (c : Char), s.log.map (fun (b : BatchLog) => b.reply) = ys.map some ++ [some c] ∧
        (∀ y ∈ ys, y = 'Y' ∨ y = 'y') ∧ ¬ (c = 'Y' ∨ c = 'y') ∧
        s.log.length = ys.length + 1) ∧
    (∀ (fuel : Nat) (draws : Nat → Nat), ∃ s,
      main (fuel + 2) draws ['2', '\n', 'Y', '\n', '1', '\n', 'N', '\n']
        = .ok (.finished, s) ∧
      s.log.map (fun (b : BatchLog) => b.numPlays) = [2, 1] ∧
      s.log.map (fun (b : BatchLog) => b.trials.length) = [2, 1] ∧
      s.log.map (fun (b : BatchLog) => b.reply) = [some 'Y', some 'N'] ∧
      s.stdout.getLast? = some Event.bye) := by
  refine ⟨?_, ?_, ?_⟩
  · intro s s1 c hb hr
    obtain ⟨stored, in1, ts, _, _, _, hlog, hpa, _⟩ := loop_body_spec s s1 hb
    rw [hlog] at hr
    simp at hr
    rw [hr] at hpa
    have hpa1 : s1.playAgain = c := hpa
    refine ⟨hpa1, ?_, ?_⟩
    · intro hc fuel
      exact main_loop_continue fuel s1 (by rw [hpa1]; exact hc)
    · intro hc fuel
      exact main_loop_done fuel s1 (by rw [hpa1]; exact hc)
  · intro fuel draws stdin s hm hall
    unfold main at hm
    simp only [] at hm
    split at hm
    · simp at hm
    · rename_i s2 hl
      simp at hm
      subst hm
      have inv := main_loop_inv
        (fun s => (∀ b ∈ s.log, b.reply ≠ none) →
          ((s.log = [] ∧ s.playAgain = 'Y') ∨ ∃ (ys : List Char) (c : Char),
            s.log.map (fun (b : BatchLog) => b.reply) = ys.map some ++ [some c] ∧
            (∀ y ∈ ys, y = 'Y' ∨ y = 'y') ∧ s.playAgain = c))
        (fun a b hP hc hb => replies_step a b hc hb hP) fuel _ s2 .finished
        (fun _ => Or.inl ⟨rfl, rfl⟩) hl
      obtain ⟨hP, hfin⟩ := inv
      have hnc := hfin.mp rfl
      refine ⟨by simp, ?_⟩
      rcases hP hall with ⟨_, h0⟩ | ⟨ys, c, h1, h2, h3⟩
      · exact absurd (Or.inl h0) hnc
      · refine ⟨ys, c, h1, h2, by rw [← h3]; exact hnc, ?_⟩
        have := congrArg List.length h1
        simpa using this
    · simp at hm
  · intro fuel draws
    obtain ⟨s, hs, h1, h2, h3⟩ := replay_scenario_loop fuel draws
    refine ⟨{ s with stdout := s.stdout ++ [Event.bye] }, ?_, h1, h2, h3, by simp⟩
    unfold main
    simp only [hs]

/-- C9 at the input `2\nY\n1\nN\n` with the draws 0, 1, 2, ...: the run ends
after two batches, the replies read being `Y` then `N`. -/
theorem replay_iff_yes_witness :
    ∃ s, main 5 (fun i => i) ['2', '\n', 'Y', '\n', '1', '\n', 'N', '\n']
        = .ok (.finished, s) ∧
      (∀ b ∈ s.log, b.reply ≠ none) ∧ s.stdout.getLast? = some Event.bye ∧
      s.log.length = 2 :=
  ⟨_, rfl, by decide,
    (replay_iff_yes.2.1 5 (fun i => i) ['2', '\n', 'Y', '\n', '1', '\n', 'N', '\n'] _ rfl
      (by decide)).1, by decide⟩

theorem exhausted_step (s s1 : Session)
    (hP : s.playAgain = 'Y' ∧ (s.stdin = ['1', '\n'] ∨ s.stdin = []))
    (hb : loop_body s = .ok s1) :
    s1.playAgain = 'Y' ∧ (s1.stdin = ['1', '\n'] ∨ s1.stdin = []) := by
  obtain ⟨stored, in1, ts, hs, _, _, _, hpa, hin⟩ := loop_body_spec s s1 hb
  rcases hP.2 with h | h
  · rw [h] at hs
    have e : scan_int ['1', '\n'] = .ok (some 1, ['\n']) := rfl
    rw [e] at hs
    simp at hs
    rw [← hs.2] at hpa hin
    have c : scan_char ['\n'] = (none, []) := rfl
    rw [c] at hpa hin
    exact ⟨hpa.trans hP.1, Or.inr hin⟩
  · rw [h] at hs
    have e : scan_int [] = .ok (none, []) := rfl
    rw [e] at hs
    simp at hs
    rw [hs.2] at hpa hin
    have c : scan_char [] = (none, []) := rfl
    rw [c] at hpa hin
    exact ⟨hpa.trans hP.1, Or.inr hin⟩

theorem exhausted_scenario_loop (draws : Nat → Nat) :
    ∃ s, main_loop 2
        { results := ⟨0, 0⟩, playAgain := 'Y', rng := ⟨draws, 0⟩,
          stdin := ['1', '\n'], stdout := [Event.intro], log := [] } = .ok (.running, s) ∧
      s.log.map (fun (b : BatchLog) => b.numPlays) = [1, 1] ∧
      s.log.map (fun (b : BatchLog) => b.trials.length) = [1, 1] ∧
      s.log.map (fun (b : BatchLog) => b.reply) = [none, none] ∧
      s.playAgain = 'Y' := by
  have hmax : INT_MAX = 2147483647 := rfl
  obtain ⟨ts1, rs1, hb1, hl1, hs1, hw1, hlo1⟩ := loop_body_ok
    { results := ⟨0, 0⟩, playAgain := 'Y', rng := ⟨draws, 0⟩,
      stdin := ['1', '\n'], stdout := [Event.intro], log := [] }
    (some 1) ['\n'] rfl (le_refl (0 : Int)) (le_refl (0 : Int))
    (by show (0 : Int) + 0 + max 1 0 ≤ INT_MAX; decide)
  have c1 : scan_char ['\n'] = (none, []) := rfl
  simp only [c1, Option.getD_some, Option.getD_none] at hb1 hl1 hs1 hw1 hlo1
  obtain ⟨ts2, rs2, hb2, hl2, _, _, _⟩ := loop_body_ok
    { results := rs1, playAgain := 'Y', rng := ⟨draws, 0 + (1 : Int).toNat⟩,
      stdin := [],
      stdout := [Event.intro] ++ [Event.howMany, Event.tally rs1.wins rs1.losses,
        Event.playAgainPrompt],
      log := [] ++ [⟨some 1, 1, ts1, none⟩] }
    none [] rfl hw1 hlo1
    (by show rs1.wins + rs1.losses + max 1 0 ≤ INT_MAX; rw [hs1, hmax]; decide)
  have c2 : scan_char [] = (none, []) := rfl
  simp only [c2, Option.getD_some, Option.getD_none] at hb2 hl2
  apply Exists.intro
  constructor
  · rw [main_loop_continue _ _ (Or.inl rfl), hb1]
    simp only []
    rw [main_loop_continue _ _ (Or.inl rfl), hb2]
    simp only []
    rfl
  · have t2 : (1 : Int).toNat = 1 := rfl
    rw [t2] at hl1 hl2
    simp [hl1, hl2]

/-- C10 (code evaluated at an exhausted input): when no replay character can be
read, `playAgain` keeps its value `Y`/`y` and the loop runs another batch. On
the input `1\n` the run never leaves the loop: after the first batch a second
one (of one trial, the default) is started, and no amount of fuel reaches
`Bye!`. -/
theorem exhausted_replay_input_plays_again :
    (∀ (s s1 : Session), (s.playAgain = 'Y' ∨ s.playAgain = 'y') →
      loop_body s = .ok s1 →
      s1.log.getLast?.map (fun (b : BatchLog) => b.reply) = some none →
      s1.playAgain = s.playAgain ∧ ∀ fuel, main_loop (fuel + 1) s1 =
        match loop_body s1 with
        | .error e => .error e
        | .ok s2 => main_loop fuel s2) ∧
    (∀ (draws : Nat → Nat),
      (∀ fuel s, main fuel draws ['1', '\n'] ≠ .ok (.finished, s)) ∧
      ∃ s, main 2 draws ['1', '\n'] = .ok (.running, s) ∧
        s.log.map (fun (b : BatchLog) => b.numPlays) = [1, 1] ∧
        s.log.map (fun (b : BatchLog) => b.trials.length) = [1, 1] ∧
        s.log.map (fun (b : BatchLog) => b.reply) = [none, none] ∧
        s.playAgain = 'Y') := by
  refine ⟨?_, ?_⟩
  · intro s s1 hc hb hr
    obtain ⟨stored, in1, ts, _, _, _, hlog, hpa, _⟩ := loop_body_spec s s1 hb
    rw [hlog] at hr
    simp at hr
    rw [hr] at hpa
    have hpa1 : s1.playAgain = s.playAgain := hpa
    exact ⟨hpa1, fun fuel => main_loop_continue fuel s1 (by rw [hpa1]; exact hc)⟩
  · intro draws
    refine ⟨?_, ?_⟩
    · intro fuel s hm
      unfold main at hm
      simp only [] at hm
      split at hm
      · simp at hm
      · rename_i s2 hl
        have inv := main_loop_inv
          (fun s => s.playAgain = 'Y' ∧ (s.stdin = ['1', '\n'] ∨ s.stdin = []))
          (fun a b hP _ hb => exhausted_step a b hP hb) fuel _ s2 .finished
          ⟨rfl, Or.inl rfl⟩ hl
        exact (inv.2.mp rfl) (Or.inl inv.1.1)
      · simp at hm
    · obtain ⟨s, hs, h⟩ := exhausted_scenario_loop draws
      refine ⟨s, ?_, h⟩
      unfold main
      simp only [hs]

/-! ## Lemmas: a generator whose every draw wins -/

theorem trial_win_draw (w l : Int) (pos : Nat) (hw : w < INT_MAX) :
    ∃ t, trial 3 ⟨w, l⟩ ⟨fun _ => 1, pos⟩ = .ok (t, ⟨w + 1, l⟩, ⟨fun _ => 1, pos + 1⟩) ∧
      t.win = true := by
  have e := play_eq 3 ⟨fun _ => 1, pos⟩ (by decide)
  refine ⟨_, trial_of_play 3 ⟨w, l⟩ ⟨w + 1, l⟩ _ _ _ e ?_, rfl⟩
  show record ⟨w, l⟩ true = _
  simp [record, int_incr, hw]

theorem trial_win_draw_overflow (l : Int) (pos : Nat) :
    trial 3 ⟨INT_MAX, l⟩ ⟨fun _ => 1, pos⟩ = .error .intOverflow := by
  have e := play_eq 3 ⟨fun _ => 1, pos⟩ (by decide)
  have r : record ⟨INT_MAX, l⟩ true = .error .intOverflow := by
    simp [record, int_incr]
  unfold trial
  rw [e]
  simp only []
  rw [show (decide (Rng.peek ⟨fun _ => 1, pos⟩ % (3 : Int).toNat = 1 ∨
      Rng.peek ⟨fun _ => 1, pos⟩ % (3 : Int).toNat = 2)) = true from rfl, r]

theorem batch_loop_all_wins (k : Nat) :
    ∀ (w l : Int) (pos : Nat), w + k ≤ INT_MAX →
      ∃ ts, batch_loop 3 k ⟨w, l⟩ ⟨fun _ => 1, pos⟩
        = .ok (ts, ⟨w + k, l⟩, ⟨fun _ => 1, pos + k⟩) := by
  induction k with
  | zero => intro w l pos _; exact ⟨[], by simp [batch_loop]⟩
  | succ k ih =>
    intro w l pos h
    obtain ⟨t, ht, _⟩ := trial_win_draw w l pos (by push_cast at h; omega)
    obtain ⟨ts, hts⟩ := ih (w + 1) l (pos + 1) (by push_cast at h; omega)
    refine ⟨t :: ts, ?_⟩
    unfold batch_loop
    rw [ht]
    simp only []
    rw [hts]
    simp
    constructor
    · omega
    · omega

theorem batch_loop_room (numDoors : Int) (hd : 3 ≤ numDoors) (k : Nat) :
    ∀ (rs : Results) (g : Rng), rs.wins + k ≤ INT_MAX → rs.losses + k ≤ INT_MAX →
      ∃ ts rs1, batch_loop numDoors k rs g = .ok (ts, rs1, ⟨g.draws, g.pos + k⟩) := by
  induction k with
  | zero => intro rs g _ _; exact ⟨[], rs, rfl⟩
  | succ k ih =>
    intro rs g hw hl
    obtain ⟨t, rs1, ht⟩ := trial_ok numDoors rs g hd (by push_cast at hw; omega)
      (by push_cast at hl; omega)
    obtain ⟨a1, a2, a3, _⟩ := trial_sum _ _ _ _ _ _ ht
    obtain ⟨ts, rs2, hb⟩ := ih rs1 g.next (by push_cast at hw; omega)
      (by push_cast at hl; omega)
    refine ⟨t :: ts, rs2, ?_⟩
    unfold batch_loop
    rw [ht]
    simp only []
    rw [hb]
    simp [Rng.next]
    omega

theorem trial_loss_draw (w l : Int) (pos : Nat) (hl : l < INT_MAX) :
    ∃ t, trial 3 ⟨w, l⟩ ⟨fun _ => 0, pos⟩ = .ok (t, ⟨w, l + 1⟩, ⟨fun _ => 0, pos + 1⟩) ∧
      t.win = false := by
  have e := play_eq 3 ⟨fun _ => 0, pos⟩ (by decide)
  refine ⟨_, trial_of_play 3 ⟨w, l⟩ ⟨w, l + 1⟩ _ _ _ e ?_, rfl⟩
  show record ⟨w, l⟩ false = _
  simp [record, int_incr, hl]

theorem trial_loss_draw_overflow (w : Int) (pos : Nat) :
    trial 3 ⟨w, INT_MAX⟩ ⟨fun _ => 0, pos⟩ = .error .intOverflow := by
  have e := play_eq 3 ⟨fun _ => 0, pos⟩ (by decide)
  have r : record ⟨w, INT_MAX⟩ false = .error .intOverflow := by
    simp [record, int_incr]
  unfold trial
  rw [e]
  simp only []
  rw [show (decide (Rng.peek ⟨fun _ => 0, pos⟩ % (3 : Int).toNat = 1 ∨
      Rng.peek ⟨fun _ => 0, pos⟩ % (3 : Int).toNat = 2)) = false from rfl, r]

theorem batch_loop_wins_overflow (k : Nat) :
    ∀ (w l : Int) (pos : Nat), w ≤ INT_MAX → INT_MAX < w + k →
      batch_loop 3 k ⟨w, l⟩ ⟨fun _ => 1, pos⟩ = .error .intOverflow := by
  induction k with
  | zero => intro w l pos h1 h2; simp at h2; omega
  | succ k ih =>
    intro w l pos h1 h2
    by_cases hw : w = INT_MAX
    · subst hw
      unfold batch_loop
      rw [trial_win_draw_overflow]
    · obtain ⟨t, ht, _⟩ := trial_win_draw w l pos (by omega)
      have := ih (w + 1) l (pos + 1) (by omega) (by push_cast at h2; omega)
      unfold batch_loop
      rw [ht]
      simp only []
      rw [this]

theorem batch_loop_losses_overflow (k : Nat) :
    ∀ (w l : Int) (pos : Nat), l ≤ INT_MAX → INT_MAX < l + k →
      batch_loop 3 k ⟨w, l⟩ ⟨fun _ => 0, pos⟩ = .error .intOverflow := by
  induction k with
  | zero => intro w l pos h1 h2; simp at h2; omega
  | succ k ih =>
    intro w l pos h1 h2
    by_cases hl : l = INT_MAX
    · subst hl
      unfold batch_loop
      rw [trial_loss_draw_overflow]
    · obtain ⟨t, ht, _⟩ := trial_loss_draw w l pos (by omega)
      have := ih w (l + 1) (pos + 1) (by omega) (by push_cast at h2; omega)
      unfold batch_loop
      rw [ht]
      simp only []
      rw [this]

/-- C11 (amended): a batch runs exactly `numPlays` trials as long as each `int`
counter has room for them: for every `numPlays ≥ 0` with
`wins + numPlays ≤ INT_MAX` and `losses + numPlays ≤ INT_MAX` the batch returns,
runs `numPlays` trials, consumes exactly `numPlays` prize draws and increases
`wins + losses` by exactly `numPlays` (neither counter decreases); for every
`numPlays ≤ 0` it runs no trial, consumes no draw and leaves both counters
unchanged. The room is needed: when a counter lacks it, the draws that all win
(or all lose) overflow that counter. -/
theorem batch_runs_numPlays_trials (numPlays : Int) (rs : Results) (g : Rng) :
    (0 ≤ numPlays → rs.wins + numPlays ≤ INT_MAX → rs.losses + numPlays ≤ INT_MAX →
      ∃ ts rs1, batch numDoors numPlays rs g
          = .ok (ts, rs1, ⟨g.draws, g.pos + numPlays.toNat⟩) ∧
        (ts.length : Int) = numPlays ∧ ((numPlays.toNat : Nat) : Int) = numPlays ∧
        rs1.wins + rs1.losses = rs.wins + rs.losses + numPlays ∧
        rs.wins ≤ rs1.wins ∧ rs.losses ≤ rs1.losses) ∧
    (numPlays ≤ 0 → batch numDoors numPlays rs g = .ok ([], rs, g)) ∧
    (rs.wins ≤ INT_MAX → INT_MAX < rs.wins + numPlays →
      ∀ pos, batch numDoors numPlays rs ⟨fun _ => 1, pos⟩ = .error .intOverflow) ∧
    (rs.losses ≤ INT_MAX → INT_MAX < rs.losses + numPlays →
      ∀ pos, batch numDoors numPlays rs ⟨fun _ => 0, pos⟩ = .error .intOverflow) := by
  refine ⟨?_, ?_, ?_, ?_⟩
  · intro h0 hw hl
    have hk : ((numPlays.toNat : Nat) : Int) = numPlays := by omega
    obtain ⟨ts, rs1, hb⟩ := batch_loop_room numDoors (by decide) numPlays.toNat rs g
      (by omega) (by omega)
    obtain ⟨b1, b2, b3, b4, _⟩ := batch_loop_sum _ _ _ _ _ _ _ hb
    exact ⟨ts, rs1, hb, by omega, hk, by omega, b2, b3⟩
  · intro h0
    have hk : numPlays.toNat = 0 := by omega
    unfold batch
    rw [hk]
    rfl
  · intro h1 h2 pos
    have hk : ((numPlays.toNat : Nat) : Int) = numPlays := by omega
    exact batch_loop_wins_overflow numPlays.toNat rs.wins rs.losses pos h1 (by omega)
  · intro h1 h2 pos
    have hk : ((numPlays.toNat : Nat) : Int) = numPlays := by omega
    exact batch_loop_losses_overflow numPlays.toNat rs.wins rs.losses pos h1 (by omega)

/-- C11 (as stated) fails at the end of the `int` range: after a batch of
2147483647 trials that all win, `results[0]` is `INT_MAX`, and a further batch
with `numPlays = 1` overflows the counter instead of increasing the tally
by 1. -/
theorem batch_overflows_int_counter :
    (∃ ts, batch numDoors 2147483647 ⟨0, 0⟩ ⟨fun _ => 1, 0⟩
      = .ok (ts, ⟨2147483647, 0⟩, ⟨fun _ => 1, 2147483647⟩)) ∧
    batch numDoors 1 ⟨2147483647, 0⟩ ⟨fun _ => 1, 2147483647⟩ = .error .intOverflow := by
  constructor
  · obtain ⟨ts, h⟩ := batch_loop_all_wins 2147483647 0 0 0 (by decide)
    exact ⟨ts, h⟩
  · show batch_loop 3 1 ⟨INT_MAX, 0⟩ ⟨fun _ => 1, 2147483647⟩ = _
    unfold batch_loop
    rw [trial_win_draw_overflow]

/-- C11 (amended) at `numPlays = 1` from the tally `2^30` wins, `2^30` losses
(whose sum exceeds `INT_MAX`), and at `numPlays = -3`. -/
theorem batch_runs_numPlays_trials_witness :
    (∃ ts rs1, batch numDoors 1 ⟨1073741824, 1073741824⟩ ⟨fun i => i, 0⟩
        = .ok (ts, rs1, ⟨fun i => i, 1⟩) ∧
      (ts.length : Int) = 1 ∧ rs1.wins + rs1.losses = 2147483649) ∧
    batch numDoors (-3) ⟨1, 1⟩ ⟨fun i => i, 0⟩ = .ok ([], ⟨1, 1⟩, ⟨fun i => i, 0⟩) :=
  ⟨match (batch_runs_numPlays_trials 1 ⟨1073741824, 1073741824⟩ ⟨fun i => i, 0⟩).1
      (by decide) (by decide) (by decide) with
    | ⟨ts, rs1, h, hlen, _, hsum, _⟩ => ⟨ts, rs1, h, hlen, hsum⟩,
   (batch_runs_numPlays_trials (-3) ⟨1, 1⟩ ⟨fun i => i, 0⟩).2.1 (by decide)⟩

/-- C12 (amended): for every door count `numDoors ≥ 3` and every prize
position, the trial's outcome is WIN exactly when the final-choice door has the
prize, and the trial increments exactly one counter by 1 and leaves the other
unchanged, provided that counter is below `INT_MAX`: `wins` on a WIN, `losses`
on a LOSS. -/
theorem trial_increments_one_counter (numDoors : Int) (rs : Results) (g : Rng)
    (hd : 3 ≤ numDoors) :
    ∃ t, play numDoors g = .ok (t, g.next) ∧
      t.final.prize[t.choice]? = some t.win ∧
      (t.win = true → rs.wins < INT_MAX →
        trial numDoors rs g = .ok (t, ⟨rs.wins + 1, rs.losses⟩, g.next)) ∧
      (t.win = false → rs.losses < INT_MAX →
        trial numDoors rs g = .ok (t, ⟨rs.wins, rs.losses + 1⟩, g.next)) := by
  have hn : 3 ≤ numDoors.toNat := by omega
  refine ⟨_, play_eq numDoors g hd, ?_, ?_, ?_⟩
  · simp only []
    by_cases h1 : g.peek % numDoors.toNat = 1
    · simp only [h1, if_true]
      rw [prize_row_get _ _ _ (by omega)]
      simp
    · simp only [h1, if_false]
      rw [prize_row_get _ _ _ (by omega)]
      simp [h1, eq_comm]
  · intro hwin hlt
    refine trial_of_play _ _ _ _ _ _ (play_eq numDoors g hd) ?_
    simp only [] at hwin ⊢
    rw [hwin]
    simp [record, int_incr, hlt]
  · intro hwin hlt
    refine trial_of_play _ _ _ _ _ _ (play_eq numDoors g hd) ?_
    simp only [] at hwin ⊢
    rw [hwin]
    simp [record, int_incr, hlt]

/-- C12 (as stated) fails when the counter is at `INT_MAX`: after 2147483647
winning trials `results[0] = 2147483647`; in the next trial (3 doors, prize at
index 1, a WIN) the increment overflows and no counter is incremented by 1. -/
theorem trial_overflows_int_counter :
    (∃ ts, batch_loop 3 2147483647 ⟨0, 0⟩ ⟨fun _ => 1, 0⟩
      = .ok (ts, ⟨2147483647, 0⟩, ⟨fun _ => 1, 2147483647⟩)) ∧
    (play 3 ⟨fun _ => 1, 2147483647⟩).toOption.map (fun x => x.1.win) = some true ∧
    trial 3 ⟨2147483647, 0⟩ ⟨fun _ => 1, 2147483647⟩ = .error .intOverflow := by
  refine ⟨?_, ?_, trial_win_draw_overflow 0 2147483647⟩
  · obtain ⟨ts, h⟩ := batch_loop_all_wins 2147483647 0 0 0 (by decide)
    exact ⟨ts, h⟩
  · rw [play_eq 3 _ (by decide)]
    rfl

/-- C12 (amended) at 5 doors: the draw 7 puts the prize at index 2, a WIN, and
the draw 9 at index 4, a LOSS. -/
theorem trial_increments_one_counter_witness :
    (3 : Int) ≤ 5 ∧
    (∃ t, trial 5 ⟨3, 4⟩ ⟨fun i => i, 7⟩ = .ok (t, ⟨4, 4⟩, ⟨fun i => i, 8⟩)) ∧
    (∃ t, trial 5 ⟨3, 4⟩ ⟨fun i => i, 9⟩ = .ok (t, ⟨3, 5⟩, ⟨fun i => i, 10⟩)) :=
  ⟨by decide,
    match trial_increments_one_counter 5 ⟨3, 4⟩ ⟨fun i => i, 7⟩ (by decide) with
    | ⟨t, hp, _, hwin, _⟩ => ⟨t, hwin (by
        have e : play 5 ⟨fun i => i, 7⟩ = .ok (t, Rng.next ⟨fun i => i, 7⟩) := hp
        have e2 : (play 5 ⟨fun i => i, 7⟩).toOption.map (fun x => x.1.win) = some true := by
          decide
        rw [e] at e2
        exact Option.some.inj e2) (by decide)⟩,
    match trial_increments_one_counter 5 ⟨3, 4⟩ ⟨fun i => i, 9⟩ (by decide) with
    | ⟨t, hp, _, _, hloss⟩ => ⟨t, hloss (by
        have e : play 5 ⟨fun i => i, 9⟩ = .ok (t, Rng.next ⟨fun i => i, 9⟩) := hp
        have e2 : (play 5 ⟨fun i => i, 9⟩).toOption.map (fun x => x.1.win) = some false := by
          decide
        rw [e] at e2
        exact Option.some.inj e2) (by decide)⟩⟩

theorem get_three (a b c : Bool) (i : Nat) (hi : 3 ≤ i) : [a, b, c][i]? = none := by
  rw [List.getElem?_eq_none]
  simpa using hi

theorem forall_nat_three (P : Nat → Prop) (h0 : P 0) (h1 : P 1) (h2 : P 2)
    (h : ∀ i, 3 ≤ i → P i) : ∀ i, P i := by
  intro i
  rcases Nat.lt_or_ge i 3 with hi | hi
  · interval_cases i
    · exact h0
    · exact h1
    · exact h2
  · exact h i hi

/-- C13: with 3 doors, for every prize position, the door set starts all
closed; at the end of the trial exactly 2 doors are open, the host-revealed door
and the player's final choice, which are distinct; the original choice (index 0)
is still closed; and a door open after the reveal is still open at the end. -/
theorem three_doors_two_open_at_end (g : Rng) :
    ∃ t, play 3 g = .ok (t, g.next) ∧
      t.initial.isOpen = [false, false, false] ∧
      t.final.isOpen.length = 3 ∧
      t.final.isOpen.count true = 2 ∧
      t.final.isOpen[t.losingDoor]? = some true ∧
      t.final.isOpen[t.choice]? = some true ∧
      t.losingDoor ≠ t.choice ∧
      t.final.isOpen[0]? = some false ∧
      (∀ i : Nat, t.final.isOpen[i]? = some true ↔ (i = t.losingDoor ∨ i = t.choice)) ∧
      (∀ i : Nat, t.initial.isOpen[i]? = some true → t.revealed.isOpen[i]? = some true) ∧
      (∀ i : Nat, t.revealed.isOpen[i]? = some true → t.final.isOpen[i]? = some true) ∧
      (∀ i : Nat, t.revealed.isOpen[i]? = some true ↔ i = t.losingDoor) := by
  refine ⟨_, play_eq 3 g (by decide), ?_⟩
  have h3 : (3 : Int).toNat = 3 := rfl
  simp only [h3]
  by_cases h1 : g.peek % 3 = 1
  · simp only [h1, if_true]
    simp only [List.replicate, List.set]
    refine ⟨by trivial, by trivial, by decide, by decide, by decide, by decide, by decide,
      ?_, ?_, ?_, ?_⟩
    · apply forall_nat_three
      · decide
      · decide
      · decide
      · intro i hi
        rw [get_three _ _ _ i hi]
        simp
        omega
    · intro i h
      revert h
      revert i
      apply forall_nat_three
      · decide
      · decide
      · decide
      · intro i hi
        rw [get_three _ _ _ i hi]
        simp
    · apply forall_nat_three
      · decide
      · decide
      · decide
      · intro i hi
        rw [get_three _ _ _ i hi]
        simp
    · apply forall_nat_three
      · decide
      · decide
      · decide
      · intro i hi
        rw [get_three _ _ _ i hi]
        simp
        omega
  · simp only [h1, if_false]
    simp only [List.replicate, List.set]
    refine ⟨by trivial, by trivial, by decide, by decide, by decide, by decide, by decide,
      ?_, ?_, ?_, ?_⟩
    · apply forall_nat_three
      · decide
      · decide
      · decide
      · intro i hi
        rw [get_three _ _ _ i hi]
        simp
        omega
    · intro i h
      revert h
      revert i
      apply forall_nat_three
      · decide
      · decide
      · decide
      · intro i hi
        rw [get_three _ _ _ i hi]
        simp
    · apply forall_nat_three
      · decide
      · decide
      · decide
      · intro i hi
        rw [get_three _ _ _ i hi]
        simp
    · apply forall_nat_three
      · decide
      · decide
      · decide
      · intro i hi
        rw [get_three _ _ _ i hi]
        simp
        omega

theorem roll_die_call_ok (n : Int) (g : Rng) (h : 1 ≤ n) :
    roll_die_call n g = (.ok (((g.peek % n.toNat : Nat) : Int) + 1), g.next) := by
  simp [roll_die_call, random_number, h, tmod_draw, Rng.peek]

theorem roll_die_call_abort (n : Int) (g : Rng) (h : n < 1) :
    roll_die_call n g = (.error .assertFailed, g) := by
  have hn : ¬ n ≥ 1 := by omega
  simp [roll_die_call, hn]

theorem setup_doors_call_abort (n : Int) (g : Rng) (h : n < 1) :
    setup_doors_call n g = (.error .assertFailed, g) := by
  have hn : ¬ n ≥ 1 := by omega
  simp [setup_doors_call, hn]

theorem setup_doors_call_ok (n : Int) (g : Rng) (h : 1 ≤ n) :
    ∃ d, setup_doors_call n g = (.ok d, g.next) ∧ setup_doors n g = .ok (d, g.next) := by
  refine ⟨_, ?_, setup_doors_eq n g h⟩
  unfold setup_doors_call
  rw [if_pos (by omega), roll_die_call_ok _ _ h]
  have e1 : (fun i : Nat => decide ((i : Int) = ((g.peek % n.toNat : Nat) : Int) + 1 - 1))
      = (fun i => decide (i = g.peek % n.toNat)) := by
    funext i
    congr 1
    apply propext
    omega
  simp only [e1, List.map_const', List.length_range]

/-- C14: precondition violations are fatal and produce no result:
`roll_die(numSides)` aborts on its assertion exactly when `numSides < 1`, and
`setup_doors(numDoors)` exactly when `numDoors < 1`; when `setup_doors` (or
`roll_die`) aborts, the generator is left as it was, so no draw was consumed and
no door set was built; otherwise each call returns a value and has consumed
exactly one draw. The calls with the generator made visible agree with
`roll_die` and `setup_doors`. -/
theorem precondition_violations_abort (n : Int) (g : Rng) :
    (roll_die n g = .error .assertFailed ↔ n < 1) ∧
    (setup_doors n g = .error .assertFailed ↔ n < 1) ∧
    ((roll_die_call n g).1 = .error .assertFailed ↔ n < 1) ∧
    ((setup_doors_call n g).1 = .error .assertFailed ↔ n < 1) ∧
    (n < 1 → roll_die_call n g = (.error .assertFailed, g) ∧
      setup_doors_call n g = (.error .assertFailed, g)) ∧
    (1 ≤ n → (∃ v, roll_die_call n g = (.ok v, g.next) ∧ roll_die n g = .ok (v, g.next)) ∧
      ∃ d, setup_doors_call n g = (.ok d, g.next) ∧ setup_doors n g = .ok (d, g.next)) ∧
    (roll_die n g = match roll_die_call n g with
      | (.ok v, g1) => .ok (v, g1)
      | (.error e, _) => .error e) ∧
    (setup_doors n g = match setup_doors_call n g with
      | (.ok d, g1) => .ok (d, g1)
      | (.error e, _) => .error e) := by
  have fail : n < 1 → roll_die n g = .error .assertFailed ∧
      setup_doors n g = .error .assertFailed := by
    intro h
    have hn : ¬ n ≥ 1 := by omega
    exact ⟨by simp [roll_die, hn], by simp [setup_doors, hn]⟩
  refine ⟨⟨?_, fun h => (fail h).1⟩, ⟨?_, fun h => (fail h).2⟩, ⟨?_, ?_⟩, ⟨?_, ?_⟩,
    fun h => ⟨roll_die_call_abort n g h, setup_doors_call_abort n g h⟩, ?_, ?_, ?_⟩
  · intro h
    by_contra hc
    rw [roll_die_eq n g (by omega)] at h
    simp at h
  · intro h
    by_contra hc
    rw [setup_doors_eq n g (by omega)] at h
    simp at h
  · intro h
    by_contra hc
    rw [roll_die_call_ok n g (by omega)] at h
    simp at h
  · intro h
    rw [roll_die_call_abort n g h]
  · intro h
    by_contra hc
    obtain ⟨d, hd, _⟩ := setup_doors_call_ok n g (by omega)
    rw [hd] at h
    simp at h
  · intro h
    rw [setup_doors_call_abort n g h]
  · intro h
    exact ⟨⟨_, roll_die_call_ok n g h, roll_die_eq n g h⟩, setup_doors_call_ok n g h⟩
  · by_cases h : 1 ≤ n
    · rw [roll_die_call_ok n g h, roll_die_eq n g h]
    · rw [roll_die_call_abort n g (by omega), (fail (by omega)).1]
  · by_cases h : 1 ≤ n
    · obtain ⟨d, hd, hs⟩ := setup_doors_call_ok n g h
      rw [hd, hs]
    · rw [setup_doors_call_abort n g (by omega), (fail (by omega)).2]

/-- C14 at `numSides = 0` and `numDoors = -2`: the calls abort and the
generator still stands at draw 5. -/
theorem precondition_violations_abort_witness :
    roll_die_call 0 ⟨fun i => i, 5⟩ = (.error .assertFailed, ⟨fun i => i, 5⟩) ∧
    setup_doors_call (-2) ⟨fun i => i, 5⟩ = (.error .assertFailed, ⟨fun i => i, 5⟩) ∧
    setup_doors (-2) ⟨fun i => i, 5⟩ = .error .assertFailed :=
  ⟨((precondition_violations_abort 0 ⟨fun i => i, 5⟩).2.2.2.2.1 (by decide)).1,
    ((precondition_violations_abort (-2) ⟨fun i => i, 5⟩).2.2.2.2.1 (by decide)).2,
    (precondition_violations_abort (-2) ⟨fun i => i, 5⟩).2.1.mpr (by decide)⟩

theorem count_open_after_set (n : Nat) :
    ∀ h : Nat, h < n → ((List.replicate n false).set h true).count true = 1 := by
  induction n with
  | zero => intro h hh; omega
  | succ n ih =>
    intro h hh
    cases h with
    | zero => simp [List.replicate_succ, List.count_replicate]
    | succ h =>
      simp only [List.replicate_succ, List.set_cons_succ]
      rw [List.count_cons_of_ne (by decide)]
      exact ih h (by omega)

theorem get_open_after_set (n h : Nat) (hh : h < n) :
    ((List.replicate n false).set h true)[h]? = some true := by
  simp [List.getElem?_set, hh]

/-- C16: for every door count `numDoors ≥ 3` and every prize position the
player's final choice is the least index that is neither the host-opened door
nor the original choice `0`; it is in range and is index 1 or 2 (2 when the host
opened 1, 1 when the host opened 2); and after the reveal exactly one door,
the host's, is open. -/
theorem switch_takes_least_untouched_door (numDoors : Int) (g : Rng) (hd : 3 ≤ numDoors) :
    ∃ t, play numDoors g = .ok (t, g.next) ∧
      switch_scan t.losingDoor 0 3 0 = .ok t.choice ∧
      (t.choice : Int) < numDoors ∧ t.choice ≠ t.losingDoor ∧ t.choice ≠ 0 ∧
      (∀ j : Nat, j ≠ t.losingDoor → j ≠ 0 → t.choice ≤ j) ∧
      (t.choice = 1 ∨ t.choice = 2) ∧
      (t.losingDoor = 1 → t.choice = 2) ∧ (t.losingDoor = 2 → t.choice = 1) ∧
      (t.losingDoor = 1 ∨ t.losingDoor = 2) ∧
      t.initial.isOpen.count true = 0 ∧
      t.revealed.isOpen.count true = 1 ∧
      t.revealed.isOpen[t.losingDoor]? = some true := by
  have hn : 3 ≤ numDoors.toNat := by omega
  refine ⟨_, play_eq numDoors g hd, ?_⟩
  simp only []
  by_cases h1 : g.peek % numDoors.toNat = 1
  · simp only [h1, if_true]
    refine ⟨rfl, by omega, by decide, by decide, ?_, by decide, by decide, by decide,
      by decide, ?_, ?_, ?_⟩
    · intro j hj hj0; omega
    · simp [List.count_replicate]
    · exact count_open_after_set _ _ (by omega)
    · exact get_open_after_set _ _ (by omega)
  · simp only [h1, if_false]
    refine ⟨rfl, by omega, by decide, by decide, ?_, by decide, by decide, by decide,
      by decide, ?_, ?_, ?_⟩
    · intro j hj hj0; omega
    · simp [List.count_replicate]
    · exact count_open_after_set _ _ (by omega)
    · exact get_open_after_set _ _ (by omega)

/-- C16 at 5 doors with the prize at index 4: the host opens 1, the player
moves to 2. -/
theorem switch_takes_least_untouched_door_witness :
    (3 : Int) ≤ 5 ∧ ∃ t, play 5 ⟨fun i => i, 4⟩ = .ok (t, Rng.next ⟨fun i => i, 4⟩) ∧
      (t.choice = 1 ∨ t.choice = 2) ∧ t.revealed.isOpen.count true = 1 :=
  ⟨by decide,
    match switch_takes_least_untouched_door 5 ⟨fun i => i, 4⟩ (by decide) with
    | ⟨t, hp, _, _, _, _, _, h12, _, _, _, _, hc, _⟩ => ⟨t, hp, h12, hc⟩⟩

/-- C17: closed form of the trial outcome: for every door count `numDoors ≥ 3`
and every prize position `p`, the trial is a WIN if and only if `p = 1` or
`p = 2`; with 3 doors that is exactly when the initial choice (index 0) does
not hold the prize, and every prize position `p ≥ 3` is a LOSS. -/
theorem trial_wins_iff_prize_at_1_or_2 (numDoors : Int) (p : Nat) (g : Rng)
    (hd : 3 ≤ numDoors) (hp : g.peek % numDoors.toNat = p) :
    (p : Int) < numDoors ∧
    ∃ t, play numDoors g = .ok (t, g.next) ∧
      t.initial.prize[p]? = some true ∧
      (t.win = true ↔ (p = 1 ∨ p = 2)) ∧
      (numDoors = 3 → (t.win = true ↔ t.initial.prize[0]? = some false)) ∧
      (3 ≤ p → t.win = false) ∧
      outcome numDoors g.peek = some t.win := by
  have hn : 3 ≤ numDoors.toNat := by omega
  have hpn : p < numDoors.toNat := by rw [← hp]; exact Nat.mod_lt _ (by omega)
  refine ⟨by omega, _, play_eq numDoors g hd, ?_⟩
  simp only [hp]
  refine ⟨?_, ?_, ?_, ?_, ?_⟩
  · rw [prize_row_get _ _ _ hpn]
    simp
  · simp
  · intro h3
    subst h3
    have h3 : (3 : Int).toNat = 3 := rfl
    rw [h3] at hpn
    rw [prize_row_get _ _ _ (by omega)]
    simp
    omega
  · intro h3
    simp
    omega
  · unfold outcome
    rw [play_eq numDoors _ hd]
    simp only [Rng.peek] at hp ⊢
    simp only [hp]

/-- C17 at 3 doors with the prize at index 2 (draw 5): a WIN. -/
theorem trial_wins_iff_prize_at_1_or_2_witness :
    (3 : Int) ≤ 3 ∧ (⟨fun i => i, 5⟩ : Rng).peek % (3 : Int).toNat = 2 ∧
    ∃ t, play 3 ⟨fun i => i, 5⟩ = .ok (t, Rng.next ⟨fun i => i, 5⟩) ∧ t.win = true :=
  ⟨by decide, by decide,
    match (trial_wins_iff_prize_at_1_or_2 3 2 ⟨fun i => i, 5⟩ (by decide) (by decide)).2 with
    | ⟨t, hp, _, hw, _⟩ => ⟨t, hp, hw.mpr (Or.inr rfl)⟩⟩

/-! ## Lemmas: dependence on the draws -/

theorem play_congr (numDoors : Int) (g g1 : Rng) (hd : 3 ≤ numDoors)
    (h : g.peek % numDoors.toNat = g1.peek % numDoors.toNat) :
    ∃ t, play numDoors g = .ok (t, g.next) ∧ play numDoors g1 = .ok (t, g1.next) := by
  refine ⟨_, play_eq numDoors g hd, ?_⟩
  rw [play_eq numDoors g1 hd, h]

theorem trial_congr (numDoors : Int) (rs : Results) (g g1 : Rng) (hd : 3 ≤ numDoors)
    (h : g.peek % numDoors.toNat = g1.peek % numDoors.toNat) :
    (∃ e, trial numDoors rs g = .error e ∧ trial numDoors rs g1 = .error e) ∨
    (∃ t rs1, trial numDoors rs g = .ok (t, rs1, g.next) ∧
      trial numDoors rs g1 = .ok (t, rs1, g1.next)) := by
  obtain ⟨t, h1, h2⟩ := play_congr numDoors g g1 hd h
  cases hr : record rs t.win with
  | error e =>
    left
    refine ⟨e, ?_, ?_⟩
    · unfold trial; rw [h1]; simp only []; rw [hr]
    · unfold trial; rw [h2]; simp only []; rw [hr]
  | ok rs1 =>
    right
    exact ⟨t, rs1, trial_of_play _ _ _ _ _ _ h1 hr, trial_of_play _ _ _ _ _ _ h2 hr⟩

theorem batch_loop_congr (numDoors : Int) (hd : 3 ≤ numDoors) (k : Nat) :
    ∀ (rs : Results) (g g1 : Rng),
      (∀ i, i < k → g.draws (g.pos + i) % numDoors.toNat
        = g1.draws (g1.pos + i) % numDoors.toNat) →
      (batch_loop numDoors k rs g).map (fun x => (x.1, x.2.1))
        = (batch_loop numDoors k rs g1).map (fun x => (x.1, x.2.1)) := by
  induction k with
  | zero => intro rs g g1 _; rfl
  | succ k ih =>
    intro rs g g1 h
    have h0 : g.peek % numDoors.toNat = g1.peek % numDoors.toNat := h 0 (by omega)
    rcases trial_congr numDoors rs g g1 hd h0 with ⟨e, e1, e2⟩ | ⟨t, rs1, e1, e2⟩
    · unfold batch_loop
      rw [e1, e2]
    · have hi := ih rs1 g.next g1.next (by
        intro i hi
        have := h (i + 1) (by omega)
        simpa [Rng.next, Nat.add_assoc, Nat.add_comm 1 i] using this)
      unfold batch_loop
      rw [e1, e2]
      simp only []
      cases hb : batch_loop numDoors k rs1 g.next with
      | error e =>
        rw [hb] at hi
        cases hb1 : batch_loop numDoors k rs1 g1.next with
        | error e' =>
          rw [hb1] at hi
          simp [Except.map] at hi
          simp [Except.map, hi]
        | ok x =>
          rw [hb1] at hi
          simp [Except.map] at hi
      | ok x =>
        rw [hb] at hi
        cases hb1 : batch_loop numDoors k rs1 g1.next with
        | error e' =>
          rw [hb1] at hi
          simp [Except.map] at hi
        | ok y =>
          rw [hb1] at hi
          simp [Except.map] at hi
          obtain ⟨ts, rs2, g2⟩ := x
          obtain ⟨ts', rs2', g2'⟩ := y
          simp at hi
          simp [Except.map, hi.1, hi.2]

/-- C15: determinism given the random source: for every door count
`numDoors ≥ 3` and every `numPlays`, two runs of a batch from the same tally
whose draw sequences agree (or merely agree element-wise modulo `numDoors`)
on the draws the batch takes give the same result: the same sequence of trials
(hence of outcomes) and the same tally, or the same fault. -/
theorem batch_deterministic_in_draws (numDoors : Int) (numPlays : Int) (rs : Results)
    (g g1 : Rng) (hd : 3 ≤ numDoors) :
    ((∀ i, i < numPlays.toNat → g.draws (g.pos + i) = g1.draws (g1.pos + i)) →
      (batch numDoors numPlays rs g).map (fun x => (x.1, x.2.1))
        = (batch numDoors numPlays rs g1).map (fun x => (x.1, x.2.1))) ∧
    ((∀ i, i < numPlays.toNat → g.draws (g.pos + i) % numDoors.toNat
        = g1.draws (g1.pos + i) % numDoors.toNat) →
      (batch numDoors numPlays rs g).map (fun x => (x.1, x.2.1))
        = (batch numDoors numPlays rs g1).map (fun x => (x.1, x.2.1)) ∧
      (batch numDoors numPlays rs g).map (fun x => (x.1.map (fun (t : Trial) => t.win)))
        = (batch numDoors numPlays rs g1).map
            (fun x => (x.1.map (fun (t : Trial) => t.win)))) := by
  have key : (∀ i, i < numPlays.toNat → g.draws (g.pos + i) % numDoors.toNat
        = g1.draws (g1.pos + i) % numDoors.toNat) →
      (batch numDoors numPlays rs g).map (fun x => (x.1, x.2.1))
        = (batch numDoors numPlays rs g1).map (fun x => (x.1, x.2.1)) :=
    fun h => batch_loop_congr numDoors hd numPlays.toNat rs g g1 h
  refine ⟨fun h => key (fun i hi => by rw [h i hi]), fun h => ⟨key h, ?_⟩⟩
  have := congrArg (Except.map (fun (x : List Trial × Results) =>
    x.1.map (fun (t : Trial) => t.win))) (key h)
  cases hb : batch numDoors numPlays rs g <;> cases hb1 : batch numDoors numPlays rs g1 <;>
    rw [hb, hb1] at this <;>
    first
    | (simp [Except.map] at this; done)
    | simpa [Except.map] using this

/-- C15 for two batches of 3 trials with 3 doors, one on the draws 0, 1, 2 and
one on the draws 3, 4, 5. -/
theorem batch_deterministic_in_draws_witness :
    (batch 3 3 ⟨0, 0⟩ ⟨fun i => i, 0⟩).map (fun x => (x.1, x.2.1))
      = (batch 3 3 ⟨0, 0⟩ ⟨fun i => i + 3, 0⟩).map (fun x => (x.1, x.2.1)) :=
  ((batch_deterministic_in_draws 3 3 ⟨0, 0⟩ ⟨fun i => i, 0⟩ ⟨fun i => i + 3, 0⟩
    (by decide)).2 (by
      intro i hi
      have h3 : (3 : Int).toNat = 3 := rfl
      rw [h3] at hi ⊢
      show (0 + i) % 3 = (0 + i + 3) % 3
      omega)).1

theorem loop_body_of_batch (s : Session) (stored : Option Int) (in1 : List Char)
    (ts : List Trial) (rs1 : Results) (g1 : Rng)
    (hs : scan_int s.stdin = .ok (stored, in1))
    (hb : batch numDoors (stored.getD 1) s.results s.rng = .ok (ts, rs1, g1)) :
    loop_body s = .ok
      { results := rs1, playAgain := ((scan_char in1).1).getD s.playAgain,
        rng := g1, stdin := (scan_char in1).2,
        stdout := s.stdout ++ [Event.howMany, Event.tally rs1.wins rs1.losses,
          Event.playAgainPrompt],
        log := s.log ++ [⟨stored, stored.getD 1, ts, (scan_char in1).1⟩] } := by
  have e : ∀ o : Option Int, (match o with | some n => n | none => (1 : Int)) = o.getD 1 := by
    intro o; cases o <;> rfl
  have e2 : ∀ (o : Option Char) (d : Char), (match o with | some c => c | none => d) = o.getD d := by
    intro o d; cases o <;> rfl
  unfold loop_body
  simp only [hs, e, e2, hb, List.append_assoc, List.singleton_append]

theorem loop_body_of_batch_error (s : Session) (stored : Option Int) (in1 : List Char)
    (e : Fault) (hs : scan_int s.stdin = .ok (stored, in1))
    (hb : batch numDoors (stored.getD 1) s.results s.rng = .error e) :
    loop_body s = .error e := by
  have e1 : ∀ o : Option Int, (match o with | some n => n | none => (1 : Int)) = o.getD 1 := by
    intro o; cases o <;> rfl
  unfold loop_body
  simp only [hs, e1, hb]

theorem main_of_loop_running (fuel : Nat) (draws : Nat → Nat) (stdin : List Char)
    (s : Session)
    (h : main_loop fuel
      { results := ⟨0, 0⟩, playAgain := 'Y', rng := ⟨draws, 0⟩,
        stdin := stdin, stdout := [Event.intro], log := [] } = .ok (.running, s)) :
    main fuel draws stdin = .ok (.running, s) := by
  unfold main
  simp only [h]

theorem main_of_loop_error (fuel : Nat) (draws : Nat → Nat) (stdin : List Char)
    (e : Fault)
    (h : main_loop fuel
      { results := ⟨0, 0⟩, playAgain := 'Y', rng := ⟨draws, 0⟩,
        stdin := stdin, stdout := [Event.intro], log := [] } = .error e) :
    main fuel draws stdin = .error e := by
  unfold main
  simp only [h]

/-- C18 (amended): when `scanf("%d")` stores nothing, the batch runs with the
default `numPlays = 1` set at the top of the loop body, whatever the earlier
batches were: provided both counters are below `INT_MAX`, exactly one trial is
run, one draw is consumed and `wins + losses` increases by exactly 1. -/
theorem failed_count_read_runs_one_trial (s : Session) (in1 : List Char)
    (hs : scan_int s.stdin = .ok (none, in1))
    (hw : s.results.wins < INT_MAX) (hl : s.results.losses < INT_MAX) :
    ∃ s1 t, loop_body s = .ok s1 ∧
      s1.log = s.log ++ [⟨none, 1, [t], (scan_char in1).1⟩] ∧
      s1.results.wins + s1.results.losses = s.results.wins + s.results.losses + 1 ∧
      s.results.wins ≤ s1.results.wins ∧ s.results.losses ≤ s1.results.losses ∧
      s1.rng = s.rng.next := by
  obtain ⟨t, rs1, ht⟩ := trial_ok numDoors s.results s.rng (by decide) hw hl
  obtain ⟨a1, a2, a3, _⟩ := trial_sum _ _ _ _ _ _ ht
  have hb : batch numDoors 1 s.results s.rng = .ok ([t], rs1, s.rng.next) := by
    show batch_loop numDoors 1 s.results s.rng = _
    simp only [batch_loop, ht]
  have body : loop_body s = .ok
      { results := rs1, playAgain := (match (scan_char in1).1 with
          | some c => c
          | none => s.playAgain),
        rng := s.rng.next, stdin := (scan_char in1).2,
        stdout := s.stdout ++ [Event.howMany] ++
          [Event.tally rs1.wins rs1.losses, Event.playAgainPrompt],
        log := s.log ++ [⟨none, 1, [t], (scan_char in1).1⟩] } := by
    unfold loop_body
    simp only [hs, hb]
  exact ⟨_, t, body, rfl, a1, a2, a3, rfl⟩

/-- C18 (as stated) fails at the end of the `int` range: on the input
`2147483647\nY\n` with draws that all win, the first batch leaves
`results[0] = INT_MAX`; the play count of the second batch cannot be read, the
default single trial is run, and its increment overflows instead of raising the
tally by 1. -/
theorem failed_count_read_overflows_int_counter :
    (∃ s, main 1 (fun _ => 1) ['2', '1', '4', '7', '4', '8', '3', '6', '4', '7', '\n', 'Y', '\n']
        = .ok (.running, s) ∧ s.results = ⟨2147483647, 0⟩ ∧ s.stdin = ['\n'] ∧
      scan_int s.stdin = .ok (none, [])) ∧
    main 2 (fun _ => 1) ['2', '1', '4', '7', '4', '8', '3', '6', '4', '7', '\n', 'Y', '\n']
      = .error .intOverflow := by
  obtain ⟨ts, hts⟩ := batch_loop_all_wins 2147483647 0 0 0 (by decide)
  have hb : batch numDoors 2147483647 ⟨0, 0⟩ ⟨fun _ => 1, 0⟩
      = .ok (ts, ⟨2147483647, 0⟩, ⟨fun _ => 1, 2147483647⟩) := hts
  have hs2 : scan_int ['\n'] = .ok (none, []) := rfl
  have hb2 : batch numDoors 1 ⟨2147483647, 0⟩ ⟨fun _ => 1, 2147483647⟩
      = .error .intOverflow := by
    show batch_loop 3 1 ⟨INT_MAX, 0⟩ ⟨fun _ => 1, 2147483647⟩ = _
    unfold batch_loop
    rw [trial_win_draw_overflow]
  have body1 : loop_body
      { results := ⟨0, 0⟩, playAgain := 'Y', rng := ⟨fun _ => 1, 0⟩,
        stdin := ['2', '1', '4', '7', '4', '8', '3', '6', '4', '7', '\n', 'Y', '\n'],
        stdout := [Event.intro], log := [] }
      = .ok { results := ⟨2147483647, 0⟩, playAgain := 'Y',
              rng := ⟨fun _ => 1, 2147483647⟩, stdin := ['\n'],
              stdout := [Event.intro, Event.howMany,
                Event.tally 2147483647 0, Event.playAgainPrompt],
              log := [⟨some 2147483647, 2147483647, ts, some 'Y'⟩] } :=
    loop_body_of_batch _ (some 2147483647) ['\n', 'Y', '\n'] ts _ _ rfl hb
  have body2 : loop_body
      { results := ⟨2147483647, 0⟩, playAgain := 'Y',
        rng := ⟨fun _ => 1, 2147483647⟩, stdin := ['\n'],
        stdout := [Event.intro, Event.howMany,
          Event.tally 2147483647 0, Event.playAgainPrompt],
        log := [⟨some 2147483647, 2147483647, ts, some 'Y'⟩] }
      = .error .intOverflow :=
    loop_body_of_batch_error _ none [] _ hs2 hb2
  constructor
  · have loop1 : main_loop 1
        { results := ⟨0, 0⟩, playAgain := 'Y', rng := ⟨fun _ => 1, 0⟩,
          stdin := ['2', '1', '4', '7', '4', '8', '3', '6', '4', '7', '\n', 'Y', '\n'],
          stdout := [Event.intro], log := [] }
        = .ok (.running,
            { results := ⟨2147483647, 0⟩, playAgain := 'Y',
              rng := ⟨fun _ => 1, 2147483647⟩, stdin := ['\n'],
              stdout := [Event.intro, Event.howMany,
                Event.tally 2147483647 0, Event.playAgainPrompt],
              log := [⟨some 2147483647, 2147483647, ts, some 'Y'⟩] }) := by
      rw [main_loop_continue _ _ (Or.inl rfl), body1]
      simp only []
      rw [main_loop_zero, if_pos (Or.inl rfl)]
    refine ⟨
            { results := ⟨2147483647, 0⟩, playAgain := 'Y',
              rng := ⟨fun _ => 1, 2147483647⟩, stdin := ['\n'],
              stdout := [Event.intro, Event.howMany,
                Event.tally 2147483647 0, Event.playAgainPrompt],
              log := [⟨some 2147483647, 2147483647, ts, some 'Y'⟩] }, ?_, rfl, rfl, hs2⟩
    exact main_of_loop_running _ _ _ _ loop1
  · apply main_of_loop_error
    rw [main_loop_continue _ _ (Or.inl rfl), body1]
    simp only []
    rw [main_loop_continue _ _ (Or.inl rfl), body2]

/-- C18 (amended) after an earlier batch of 5 plays, on the input `abc`. -/
theorem failed_count_read_runs_one_trial_witness :
    ∃ s1 t, loop_body
        { results := ⟨3, 2⟩, playAgain := 'y', rng := ⟨fun i => i, 5⟩,
          stdin := ['a', 'b', 'c'], stdout := [], log := [⟨some 5, 5, [], some 'y'⟩] }
        = .ok s1 ∧
      s1.log = [⟨some 5, 5, [], some 'y'⟩, ⟨none, 1, [t], some 'a'⟩] ∧
      s1.results.wins + s1.results.losses = 6 :=
  match failed_count_read_runs_one_trial
      { results := ⟨3, 2⟩, playAgain := 'y', rng := ⟨fun i => i, 5⟩,
        stdin := ['a', 'b', 'c'], stdout := [], log := [⟨some 5, 5, [], some 'y'⟩] }
      ['a', 'b', 'c'] rfl (by decide) (by decide) with
  | ⟨s1, t, h, hlog, hsum, _⟩ => ⟨s1, t, h, hlog, hsum⟩

end Monty
